import Mathlib

/-!
# lru_cache: a shallow embedding of `src/lru_cache.c`

The C program keeps its entries in heap blocks linked by raw pointers.  The
embedding keeps every block handed out by `calloc` in one list, the entry
store, and a pointer to an entry is the index of its block in that list
(`none` is the null pointer).  The program never frees an entry outside
`lru_cache_destroy`, so indices stay valid for the whole life of a cache.

Every function of the source is translated statement by statement.  A run of
the C code that dereferences a null or dangling pointer, calls through a null
function pointer, fails an `assert`, loops for ever, or calls a function with
an object of the wrong type has no result: the embedded function returns
`none` there.  What the environment decides for a call (the clock, the lock
primitive, the allocator) is an explicit argument of type `Env`.
-/

set_option autoImplicit false

namespace LruCache

/-! ## MurmurHash3 (lines 47-136) -/

/-- The modulus of `uint32_t` arithmetic. -/
def U32 : Nat := 4294967296

/-- The modulus of `size_t` arithmetic (LP64). -/
def SIZE_MAX1 : Nat := 18446744073709551616

/-- The function `rotl32 (x, r)`: `(x << r) | (x >> (32 - r))` on `uint32_t`. -/
def rotl32 (x r : Nat) : Nat :=
  ((x <<< r) % U32) ||| (x >>> (32 - r))

/-- The function `getblock (p, i)`: one aligned 32-bit read, little endian (x86), given by its four bytes. -/
def getblock (b0 b1 b2 b3 : Nat) : Nat :=
  b0 + (b1 <<< 8) + (b2 <<< 16) + (b3 <<< 24)

/-- The function `fmix (h)`: the finalization mix. -/
def fmix (h : Nat) : Nat :=
  let h := h ^^^ (h >>> 16)
  let h := (h * 0x85ebca6b) % U32
  let h := h ^^^ (h >>> 13)
  let h := (h * 0xc2b2ae35) % U32
  h ^^^ (h >>> 16)

/-- The constant `c1` of `MurMurhash3_x86_32`. -/
def c1 : Nat := 0xcc9e2d51

/-- The constant `c2` of `MurMurhash3_x86_32`. -/
def c2 : Nat := 0x1b873593

/-- The statements `k1 *= c1; k1 = ROTL32(k1,15); k1 *= c2;` shared by body and tail. -/
def mix_k1 (k1 : Nat) : Nat :=
  let k1 := (k1 * c1) % U32
  let k1 := rotl32 k1 15
  (k1 * c2) % U32

/-- One pass of the body loop (lines 100-108) on the block `k1`. -/
def body_step (h1 k1 : Nat) : Nat :=
  let h1 := h1 ^^^ mix_k1 k1
  let h1 := rotl32 h1 13
  (h1 * 5 + 0xe6546b64) % U32

/-- The body loop (lines 98-109): consumes the `len / 4` leading blocks and
returns the running hash together with the `len & 3` bytes left for the tail. -/
def murmur_body : Nat → List Nat → Nat × List Nat
  | h1, b0 :: b1 :: b2 :: b3 :: rest => murmur_body (body_step h1 (getblock b0 b1 b2 b3)) rest
  | h1, tail => (h1, tail)

/-- The tail `switch` with its fall-through cases (lines 116-124). -/
def murmur_tail (h1 : Nat) (tail : List Nat) : Nat :=
  match tail with
  | [t0] => h1 ^^^ mix_k1 t0
  | [t0, t1] => h1 ^^^ mix_k1 ((t1 <<< 8) ^^^ t0)
  | [t0, t1, t2] => h1 ^^^ mix_k1 (((t2 <<< 16) ^^^ (t1 <<< 8)) ^^^ t0)
  | _ => h1

/-- The function `MurMurhash3_x86_32 (key, len, seed, out)`: the value stored in `*out`.
The key is the list of its `len` bytes. -/
def MurMurhash3_x86_32 (key : List Nat) (seed : Nat) : Nat :=
  let bt := murmur_body seed key
  let h1 := murmur_tail bt.1 bt.2
  let h1 := h1 ^^^ (key.length % U32)
  fmix h1

/-! ## Data model (`lru_cache.h`) -/

/-- The constant `LRU_CACHE_MIN_VALUES`. -/
def LRU_CACHE_MIN_VALUES : Nat := 128
/-- The constant `LRU_CACHE_DEFAULT_MAX_VALUES`. -/
def LRU_CACHE_DEFAULT_MAX_VALUES : Nat := 4096
/-- The constant `LRU_CACHE_MIN_SIZE`. -/
def LRU_CACHE_MIN_SIZE : Nat := 1024 * 1024
/-- The constant `LRU_CACHE_DEFAULT_MAX_SIZE`. -/
def LRU_CACHE_DEFAULT_MAX_SIZE : Nat := 0
/-- The constant `LRU_CACHE_FLAG_NONE`. -/
def LRU_CACHE_FLAG_NONE : Nat := 0
/-- The constant `LRU_CACHE_FLAG_DONT_FREE`, `1<<1`. -/
def LRU_CACHE_FLAG_DONT_FREE : Nat := 2
/-- The constant `LRU_CACHE_FLAG_DONT_LOCK`, `1<<2`. -/
def LRU_CACHE_FLAG_DONT_LOCK : Nat := 4
/-- The constant `EINVAL` of `errno.h` (Linux). -/
def EINVAL : Int := 22
/-- The size `sizeof (lru_cache_entry_t)` on LP64: a `time_t` and six pointers. -/
def sizeof_lru_cache_entry_t : Nat := 56

/-- The type `struct _lru_cache_entry`.  A key is the list of the bytes of the C string
before its terminating NUL; a value is the address held by the `void *`
(0 is `NULL`); the four links are indices into the entry store. -/
structure lru_cache_entry_t where
  mtime : Int
  key : List Nat
  value : Nat
  cc_prev : Option Nat
  cc_next : Option Nat
  prev : Option Nat
  next : Option Nat
deriving DecidableEq, Repr

/-- The type `struct _lru_cache` without its lock.  `values` is the bucket table;
`size_func` is the installed sizing hook if any; `destroy_func` and
`compare_func` record whether a hook is installed. -/
structure lru_cache_t where
  mtime : Int
  ttl : Int
  seed : Nat
  max_size : Nat
  size_cnt : Nat
  max_values : Nat
  value_cnt : Nat
  values : List (Option Nat)
  first : Option Nat
  last : Option Nat
  size_func : Option (Nat → Nat)
  compare_func : Bool
  destroy_func : Bool

/-- The memory a cache lives in: the cache object, the entry store, and the
values that were passed to `destroy_func` so far, oldest first. -/
structure State where
  cache : lru_cache_t
  heap : List lru_cache_entry_t
  released : List Nat

/-- What the environment answers during one call: the reading of `time (NULL)`,
the result of the lock and unlock primitives when they are called, whether
`calloc` and `strdup` succeed, and the `errno` they leave on failure. -/
structure Env where
  now : Int
  lock_ret : Int
  unlock_ret : Int
  calloc_ok : Bool
  strdup_ok : Bool
  errno : Int
deriving DecidableEq, Repr

/-- What a call hands back: the return value, the code stored through `err`
(`none` when the call does not write it) and the memory afterwards. -/
structure Result (α : Type) where
  ret : α
  err : Option Int
  st : State

/-- The function `lru_cache_hash (cache, key)` (lines 138-154). -/
def lru_cache_hash (cache : lru_cache_t) (key : List Nat) : Nat :=
  MurMurhash3_x86_32 key cache.seed % cache.max_values

/-- The macro `LRU_CACHE_RDLOCK (cache, flags)`; a build without threads is the case `lock_ret = 0`. -/
def LRU_CACHE_RDLOCK (flags : Nat) (env : Env) : Int :=
  if flags &&& LRU_CACHE_FLAG_DONT_LOCK ≠ 0 then 0 else env.lock_ret

/-- The macro `LRU_CACHE_WRLOCK (cache, flags)`. -/
def LRU_CACHE_WRLOCK (flags : Nat) (env : Env) : Int :=
  if flags &&& LRU_CACHE_FLAG_DONT_LOCK ≠ 0 then 0 else env.lock_ret

/-- The macro `LRU_CACHE_UNLOCK (cache, flags)`. -/
def LRU_CACHE_UNLOCK (flags : Nat) (env : Env) : Int :=
  if flags &&& LRU_CACHE_FLAG_DONT_LOCK ≠ 0 then 0 else env.unlock_ret

/-- A write through the entry pointer `p`: no result when `p` dangles. -/
def store (heap : List lru_cache_entry_t) (p : Nat)
    (f : lru_cache_entry_t → lru_cache_entry_t) : Option (List lru_cache_entry_t) :=
  match heap[p]? with
  | some e => some (heap.set p (f e))
  | none => none

/-- A guarded write `if (q) q->... = ...;`: nothing happens when `q` is null. -/
def store_opt (heap : List lru_cache_entry_t) (q : Option Nat)
    (f : lru_cache_entry_t → lru_cache_entry_t) : Option (List lru_cache_entry_t) :=
  match q with
  | some q => store heap q f
  | none => some heap

/-! ## Creation and configuration (lines 156-268) -/

/-- What the environment answers during `lru_cache_create`. -/
structure CreateEnv where
  now : Int
  calloc_cache_ok : Bool
  calloc_values_ok : Bool
  rwlock_init_ret : Int
  errno : Int
deriving DecidableEq, Repr

/-- The function `lru_cache_create (max_values, max_size, err)`: the new cache (`none` for
`NULL`) and the code stored through `err`. -/
def lru_cache_create (max_values max_size : Nat) (env : CreateEnv) :
    Option State × Option Int :=
  if max_values ≠ 0 ∧ max_values < LRU_CACHE_MIN_VALUES then (none, some EINVAL)
  else
    let max_values := if max_values ≠ 0 then max_values else LRU_CACHE_DEFAULT_MAX_VALUES
    if max_size ≠ 0 ∧ max_size < LRU_CACHE_MIN_SIZE then (none, some EINVAL)
    else
      let max_size := if max_size ≠ 0 then max_size else LRU_CACHE_DEFAULT_MAX_SIZE
      if !env.calloc_cache_ok then (none, some env.errno)
      else if !env.calloc_values_ok then (none, some env.errno)
      else if env.rwlock_init_ret ≠ 0 then (none, some env.errno)
      else
        (some
          { cache :=
              { mtime := env.now
                ttl := 0
                seed := (env.now % (U32 : Int)).toNat
                max_size := max_size
                size_cnt := 0
                max_values := max_values
                value_cnt := 0
                values := List.replicate max_values none
                first := none
                last := none
                size_func := none
                compare_func := false
                destroy_func := false }
            heap := []
            released := [] },
         none)

/-- The body of `LRU_CACHE_SET_OPT (opt)` (lines 215-232) with the assignment
`cache->opt = opt` given as `upd`. -/
def LRU_CACHE_SET_OPT (upd : lru_cache_t → lru_cache_t) (s : State) (flags : Nat)
    (env : Env) : Result Int :=
  let ret := LRU_CACHE_WRLOCK flags env
  if ret ≠ 0 then ⟨-1, some ret, s⟩
  else
    let s1 : State := { s with cache := upd s.cache }
    let ret := LRU_CACHE_UNLOCK flags env
    if ret ≠ 0 then ⟨-1, some ret, s1⟩ else ⟨0, none, s1⟩

/-- The function `lru_cache_set_size_func`. -/
def lru_cache_set_size_func (s : State) (size_func : Option (Nat → Nat)) (flags : Nat)
    (env : Env) : Result Int :=
  LRU_CACHE_SET_OPT (fun c => { c with size_func := size_func }) s flags env

/-- The function `lru_cache_set_compare_func`. -/
def lru_cache_set_compare_func (s : State) (compare_func : Bool) (flags : Nat)
    (env : Env) : Result Int :=
  LRU_CACHE_SET_OPT (fun c => { c with compare_func := compare_func }) s flags env

/-- The function `lru_cache_set_destroy_func`. -/
def lru_cache_set_destroy_func (s : State) (destroy_func : Bool) (flags : Nat)
    (env : Env) : Result Int :=
  LRU_CACHE_SET_OPT (fun c => { c with destroy_func := destroy_func }) s flags env

/-- The function `lru_cache_set_ttl`. -/
def lru_cache_set_ttl (s : State) (ttl : Int) (flags : Nat) (env : Env) : Result Int :=
  LRU_CACHE_SET_OPT (fun c => { c with ttl := ttl }) s flags env

/-- The function `lru_cache_empty` (lines 261-268): `mtime = time (NULL)` then `LRU_CACHE_SET_OPT (mtime)`. -/
def lru_cache_empty (s : State) (flags : Nat) (env : Env) : Result Int :=
  let mtime := env.now
  LRU_CACHE_SET_OPT (fun c => { c with mtime := mtime }) s flags env

/-! ## Lookup (lines 364-407) -/

/-- The loop of `lru_cache_get` (lines 386-395) from `entry` on: the entry the
loop leaves in `entry`.  `fuel` bounds the number of passes; a walk that needs
more passes than there are entries is in a cycle and never ends. -/
def get_loop (cache : lru_cache_t) (heap : List lru_cache_entry_t) (key : List Nat)
    (now : Int) : Nat → Option Nat → Option (Option Nat)
  | _, none => some none
  | 0, some _ => none
  | fuel + 1, some p =>
    match heap[p]? with
    | none => none
    | some e =>
      if e.key = key then
        if e.mtime < cache.mtime ∨ e.mtime + cache.ttl < now then some none
        else some (some p)
      else get_loop cache heap key now fuel e.cc_next

/-- The function `lru_cache_get (cache, key, flags, err)`: the returned pointer (0 is `NULL`). -/
def lru_cache_get (s : State) (key : List Nat) (flags : Nat) (env : Env) :
    Option (Result Nat) :=
  let ret := LRU_CACHE_RDLOCK flags env
  if ret ≠ 0 then some ⟨0, some ret, s⟩
  else
    let hash := lru_cache_hash s.cache key
    match s.cache.values[hash]? with
    | none => none
    | some chain =>
      match get_loop s.cache s.heap key env.now s.heap.length chain with
      | none => none
      | some entry =>
        let ret := LRU_CACHE_UNLOCK flags env
        if ret ≠ 0 then some ⟨0, some ret, s⟩
        else
          match entry with
          | none => some ⟨0, none, s⟩
          | some p =>
            match s.heap[p]? with
            | none => none
            | some e => some ⟨e.value, none, s⟩

/-! ## Removal (lines 539-612) -/

/-- The search loop of `lru_cache_unset` (lines 562-565); it advances along `next`. -/
def unset_loop (heap : List lru_cache_entry_t) (key : List Nat) :
    Nat → Option Nat → Option (Option Nat)
  | _, none => some none
  | 0, some _ => none
  | fuel + 1, some p =>
    match heap[p]? with
    | none => none
    | some e => if e.key ≠ key then unset_loop heap key fuel e.next else some (some p)

/-- The code after the label `unlock` of `lru_cache_unset` (lines 601-611). -/
def unset_unlock (flags : Nat) (env : Env) (res : Int) (err : Option Int) (st : State) :
    Result Int :=
  let ret := LRU_CACHE_UNLOCK flags env
  if ret < 0 then ⟨-1, if res = 0 then some ret else err, st⟩ else ⟨res, err, st⟩

/-- Lines 572-580, `update collision chain pointers`, for the entry `p` found
in the bucket whose head is `ch`: the entry store afterwards and the new `chain`. -/
def unset_chain (heap : List lru_cache_entry_t) (p ch : Nat) (e : lru_cache_entry_t) :
    Option (List lru_cache_entry_t × Option Nat) :=
  let prev := e.cc_prev
  let next := e.cc_next
  let chain := if p = ch then next else some ch
  match store_opt heap prev (fun x => { x with cc_next := next }) with
  | none => none
  | some heap1 =>
    match store_opt heap1 next (fun x => { x with cc_prev := prev }) with
    | none => none
    | some heap2 => some (heap2, chain)

/-- Lines 584-594, `update cache value pointers`, for the entry `p`: the entry
store afterwards and the new `cache->first` and `cache->last`. -/
def unset_order (cache : lru_cache_t) (heap : List lru_cache_entry_t) (p : Nat) :
    Option (List lru_cache_entry_t × Option Nat × Option Nat) :=
  match heap[p]? with
  | none => none
  | some e =>
    let prev := e.prev
    let next := e.next
    match store_opt heap prev (fun x => { x with next := next }) with
    | none => none
    | some heap3 =>
      let first :=
        match prev with
        | some _ => cache.first
        | none => if some p = cache.first then next else cache.first
      match store_opt heap3 next (fun x => { x with prev := prev }) with
      | none => none
      | some heap4 =>
        let last :=
          match next with
          | some _ => cache.last
          | none => if some p = cache.last then prev else cache.last
        some (heap4, first, last)

/-- The function `lru_cache_unset (cache, key, flags, err)`. -/
def lru_cache_unset (s : State) (key : List Nat) (flags : Nat) (env : Env) :
    Option (Result Int) :=
  let ret := LRU_CACHE_WRLOCK flags env
  if ret < 0 then some ⟨-1, some ret, s⟩
  else
    let hash := lru_cache_hash s.cache key
    match s.cache.values[hash]? with
    | none => none
    | some none => some (unset_unlock flags env (-1) (some EINVAL) s)
    | some (some ch) =>
      match unset_loop s.heap key s.heap.length (some ch) with
      | none => none
      | some none => some (unset_unlock flags env (-1) (some EINVAL) s)
      | some (some p) =>
        match s.heap[p]? with
        | none => none
        | some e =>
          match unset_chain s.heap p ch e with
          | none => none
          | some (heap2, chain) =>
            match unset_order s.cache heap2 p with
            | none => none
            | some (heap4, first, last) =>
              some (unset_unlock flags env 0 none
                { s with
                  cache := { s.cache with
                    values := s.cache.values.set hash chain, first := first, last := last }
                  heap := heap4 })

/-! ## Insertion and replacement (lines 409-537) -/

/-- The search loop of `lru_cache_set` (lines 436-442): it runs to the end of
the collision chain and returns the final `entry` and the final `chain`. -/
def set_loop (heap : List lru_cache_entry_t) (key : List Nat) :
    Nat → Option Nat → Option Nat → Option (Option Nat × Option Nat)
  | _, none, entry => some (entry, none)
  | 0, some _, _ => none
  | fuel + 1, some p, entry =>
    match heap[p]? with
    | none => none
    | some e => set_loop heap key fuel e.cc_next (if e.key = key then some p else entry)

/-- The call `lru_cache_unset (cur, cur->key, prop_flags, err)` as written at
lines 468 and 478.  Its first argument is the entry `cur` where the callee
expects the cache: the callee reads `seed`, `max_values` and `values` through
a pointer to an `lru_cache_entry_t`, which has no such members, so the run has
no defined result. -/
def lru_cache_unset_cur (_heap : List lru_cache_entry_t) (_cur : Nat) (_prop_flags : Nat) :
    Option (Result Int) :=
  none

/-- The size loop of `lru_cache_set` (lines 464-470) from `cur` on.  A pass
that skips `cur` changes nothing, a pass that calls `lru_cache_unset` is the
call above; `some ()` means the loop ended normally. -/
def size_loop (cache : lru_cache_t) (heap : List lru_cache_entry_t) (entry : Option Nat)
    (resize : Nat) (prop_flags : Nat) : Nat → Option Nat → Option Unit
  | _, none => some ()
  | 0, some _ => none
  | fuel + 1, some cur =>
    if (cache.size_cnt + resize) % SIZE_MAX1 > cache.max_size then
      if entry ≠ some cur then
        -- what the loop does with the return value never matters: the call has none
        match lru_cache_unset_cur heap cur prop_flags with
        | none => none
        | some _ => none
      else
        match heap[cur]? with
        | none => none
        | some e => size_loop cache heap entry resize prop_flags fuel e.next
    else some ()

/-- The count loop of `lru_cache_set` (lines 474-480) from `cur` on. -/
def count_loop (cache : lru_cache_t) (heap : List lru_cache_entry_t) (prop_flags : Nat) :
    Option Nat → Option Unit
  | none => some ()
  | some cur =>
    if cache.value_cnt ≥ cache.max_values then
      match lru_cache_unset_cur heap cur prop_flags with
      | none => none
      | some _ => none
    else some ()

/-- The value of `resize` after lines 450-459 (only computed when `max_size` is
not 0); calling a null `size_func` has no result. -/
def set_resize (cache : lru_cache_t) (heap : List lru_cache_entry_t) (entry : Option Nat)
    (key : List Nat) (value : Nat) : Option Nat :=
  match cache.size_func with
  | none => none
  | some size_func =>
    match entry with
    | some p =>
      match heap[p]? with
      | none => none
      | some e =>
        let resize := size_func value
        let size := size_func e.value
        some (if resize < size then 0 else resize)
    | none =>
      some ((((sizeof_lru_cache_entry_t + key.length) % SIZE_MAX1) + size_func value)
        % SIZE_MAX1)

/-- The code after the label `unlock` of `lru_cache_set` (lines 526-536). -/
def set_unlock (flags : Nat) (env : Env) (res : Int) (err : Option Int) (st : State) :
    Result Int :=
  let ret := LRU_CACHE_UNLOCK flags env
  if ret ≠ 0 then ⟨-1, if res = 0 then some ret else err, st⟩ else ⟨res, err, st⟩

/-- The call `cache->destroy_func (value)`: the log of released values
afterwards; no result when no hook is installed. -/
def call_destroy (s : State) (value : Nat) : Option (List Nat) :=
  if s.cache.destroy_func then some (s.released ++ [value]) else none

/-- The branch `if (entry)` of lines 484-496 for the existing entry `p`. -/
def set_replace (s : State) (p : Nat) (value : Nat) (flags : Nat) : Option State :=
  match s.heap[p]? with
  | none => none
  | some e =>
    match (if flags &&& LRU_CACHE_FLAG_DONT_FREE = 0 then call_destroy s e.value
           else some s.released) with
    | none => none
    | some released =>
      if some p ≠ s.cache.last then
        let prev := e.prev
        let next := e.next
        match next with
        | none => none
        | some n =>
          match store s.heap n (fun x => { x with prev := e.prev }) with
          | none => none
          | some heap1 =>
            if some p = s.cache.first then
              match store heap1 p (fun x => { x with value := value }) with
              | none => none
              | some heap2 =>
                some { cache := { s.cache with first := next }, heap := heap2,
                       released := released }
            else
              match prev with
              | none => none
              | some q =>
                match store heap1 q (fun x => { x with next := next }) with
                | none => none
                | some heap2 =>
                  match store heap2 p (fun x => { x with value := value }) with
                  | none => none
                  | some heap3 => some { cache := s.cache, heap := heap3, released := released }
      else
        match store s.heap p (fun x => { x with value := value }) with
        | none => none
        | some heap1 => some { cache := s.cache, heap := heap1, released := released }

/-- Lines 498-506: the block `calloc` returns, zeroed, after `entry->mtime = time (NULL)`
and `entry->key = strdup (key)`. -/
def fresh_entry (now : Int) (key : List Nat) : lru_cache_entry_t :=
  { mtime := now, key := key, value := 0, cc_prev := none, cc_next := none,
    prev := none, next := none }

/-- Lines 507-515: the new entry `p` is linked behind `cache->last`.  Returns
the entry store and the new `cache->first` and `cache->last`. -/
def set_append (cache : lru_cache_t) (heap : List lru_cache_entry_t) (p : Nat) :
    Option (List lru_cache_entry_t × Option Nat × Option Nat) :=
  match cache.last with
  | some l =>
    match store heap l (fun x => { x with next := some p }) with
    | none => none
    | some heap1 =>
      match store heap1 p (fun x => { x with prev := some l }) with
      | none => none
      | some heap2 => some (heap2, cache.first, some p)
  | none => some (heap, some p, some p)

/-- The branch `else` of lines 497-524 once `calloc` and `strdup` succeeded:
the new block gets the next free index; `chain` is the value the search loop
left in `chain`. -/
def set_insert (s : State) (hash : Nat) (chain : Option Nat) (key : List Nat) (value : Nat)
    (now : Int) : Option State :=
  let p := s.heap.length
  let entry := fresh_entry now key
  match set_append s.cache (s.heap ++ [entry]) p with
  | none => none
  | some (heap1, first, last) =>
    match store heap1 p (fun x => { x with value := value }) with
    | none => none
    | some heap2 =>
      match chain with
      | some c =>
        match store heap2 c (fun x => { x with next := some p }) with
        | none => none
        | some heap3 =>
          match store heap3 p (fun x => { x with prev := some c }) with
          | none => none
          | some heap4 =>
            some { s with cache := { s.cache with first := first, last := last }, heap := heap4 }
      | none =>
        some { s with
          cache := { s.cache with
            first := first, last := last, values := s.cache.values.set hash (some p) }
          heap := heap2 }

/-- The function `lru_cache_set (cache, key, value, flags, err)`. -/
def lru_cache_set (s : State) (key : List Nat) (value : Nat) (flags : Nat) (env : Env) :
    Option (Result Int) :=
  if value = 0 then none
  else
    let ret := LRU_CACHE_WRLOCK flags env
    if ret ≠ 0 then some ⟨-1, some ret, s⟩
    else
      let prop_flags := flags ||| LRU_CACHE_FLAG_DONT_LOCK
      let hash := lru_cache_hash s.cache key
      match s.cache.values[hash]? with
      | none => none
      | some chain0 =>
        match set_loop s.heap key s.heap.length chain0 none with
        | none => none
        | some (entry, chain) =>
          -- remove unwanted hash table entries so we stay within bounds
          let sized : Option Unit :=
            if s.cache.max_size ≠ 0 then
              match set_resize s.cache s.heap entry key value with
              | none => none
              | some resize =>
                size_loop s.cache s.heap entry resize prop_flags s.heap.length s.cache.first
            else some ()
          match sized with
          | none => none
          | some _ =>
            let counted : Option Unit :=
              if entry = none ∧ s.cache.value_cnt ≥ s.cache.max_values then
                count_loop s.cache s.heap prop_flags s.cache.first
              else some ()
            match counted with
            | none => none
            | some _ =>
              -- update or insert hash table entry
              match entry with
              | some p =>
                match set_replace s p value flags with
                | none => none
                | some s1 => some (set_unlock flags env 0 none s1)
              | none =>
                if !env.calloc_ok then some (set_unlock flags env (-1) (some env.errno) s)
                else if !env.strdup_ok then some (set_unlock flags env (-1) (some env.errno) s)
                else
                  match set_insert s hash chain key value env.now with
                  | none => none
                  | some s1 => some (set_unlock flags env 0 none s1)

/-! ## Call sequences -/

/-- One call of the public interface on an existing cache, with what the
environment answers during it. -/
inductive Op where
  | set (key : List Nat) (value : Nat) (flags : Nat) (env : Env)
  | unset (key : List Nat) (flags : Nat) (env : Env)
  | empty (flags : Nat) (env : Env)
  | set_ttl (ttl : Int) (flags : Nat) (env : Env)
  | set_size_func (size_func : Option (Nat → Nat)) (flags : Nat) (env : Env)
  | set_compare_func (compare_func : Bool) (flags : Nat) (env : Env)
  | set_destroy_func (destroy_func : Bool) (flags : Nat) (env : Env)

/-- The effect of one call. -/
def step (s : State) : Op → Option (Result Int)
  | .set key value flags env => lru_cache_set s key value flags env
  | .unset key flags env => lru_cache_unset s key flags env
  | .empty flags env => some (lru_cache_empty s flags env)
  | .set_ttl ttl flags env => some (lru_cache_set_ttl s ttl flags env)
  | .set_size_func f flags env => some (lru_cache_set_size_func s f flags env)
  | .set_compare_func f flags env => some (lru_cache_set_compare_func s f flags env)
  | .set_destroy_func f flags env => some (lru_cache_set_destroy_func s f flags env)

/-- The memory after a sequence of calls, when every call of it returns. -/
def run (s : State) : List Op → Option State
  | [] => some s
  | op :: ops =>
    match step s op with
    | none => none
    | some r => run r.st ops

/-- The states a cache can be in: what `lru_cache_create` returns, and what any
call that returns leaves behind. -/
inductive Reachable : State → Prop where
  | create (max_values max_size : Nat) (env : CreateEnv) (s : State) :
      (lru_cache_create max_values max_size env).1 = some s → Reachable s
  | step (s : State) (op : Op) (r : Result Int) :
      Reachable s → step s op = some r → Reachable r.st

/-- The order list as the program sees it: the entries met from `cur` on along
`next`, at most `fuel` of them. -/
def lru_list (heap : List lru_cache_entry_t) : Nat → Option Nat → List Nat
  | _, none => []
  | 0, some _ => []
  | fuel + 1, some p =>
    match heap[p]? with
    | none => [p]
    | some e => p :: lru_list heap fuel e.next

/-- An environment in which nothing fails, at clock reading `now`. -/
def env_ok (now : Int) : Env :=
  { now := now, lock_ret := 0, unlock_ret := 0, calloc_ok := true, strdup_ok := true,
    errno := 0 }

/-- An environment for `lru_cache_create` in which nothing fails. -/
def cenv_ok (now : Int) : CreateEnv :=
  { now := now, calloc_cache_ok := true, calloc_values_ok := true, rwlock_init_ret := 0,
    errno := 0 }

/-- The return values of a sequence of calls, in order, with the memory after the last one. -/
def run_rets (s : State) : List Op → Option (List Int × State)
  | [] => some ([], s)
  | op :: ops =>
    match step s op with
    | none => none
    | some r =>
      match run_rets r.st ops with
      | none => none
      | some (rets, s1) => some (r.ret :: rets, s1)

/-- A whole session: `lru_cache_create`, then a sequence of calls on the cache it returned. -/
def session (max_values max_size : Nat) (cenv : CreateEnv) (ops : List Op) :
    Option (List Int × State) :=
  match (lru_cache_create max_values max_size cenv).1 with
  | none => none
  | some s => run_rets s ops

/-- The pointer `lru_cache_get` returns after a session, when both return. -/
def session_get (max_values max_size : Nat) (cenv : CreateEnv) (ops : List Op)
    (key : List Nat) (flags : Nat) (env : Env) : Option Nat :=
  match session max_values max_size cenv ops with
  | none => none
  | some (_, s) =>
    match lru_cache_get s key flags env with
    | none => none
    | some r => some r.ret

/-- The order list of a cache, from `cache->first` along `next`. -/
def lru_order (s : State) : List Nat :=
  lru_list s.heap s.heap.length s.cache.first

/-- The entries of a collision chain, from `cur` on along `cc_next`, at most `fuel` of them. -/
def chain_list (heap : List lru_cache_entry_t) : Nat → Option Nat → List Nat
  | _, none => []
  | 0, some _ => []
  | fuel + 1, some p =>
    match heap[p]? with
    | none => [p]
    | some e => p :: chain_list heap fuel e.cc_next

/-- The live entries: those linked in a bucket chain or in the order list. -/
def live_entries (s : State) : List Nat :=
  ((s.cache.values.map (chain_list s.heap s.heap.length)).flatten ++ lru_order s).dedup

/-- The sum of `size_func (value)` over the live entries. -/
def live_size (s : State) (size_func : Nat → Nat) : Nat :=
  ((live_entries s).map (fun p =>
    match s.heap[p]? with
    | some e => size_func e.value
    | none => 0)).sum

/-- Where the key comparison of a bucket walk (line 389) stops: the first entry
of the collision chain from `cur` on whose key is `key`. -/
def chain_find (heap : List lru_cache_entry_t) (key : List Nat) :
    Nat → Option Nat → Option (Option Nat)
  | _, none => some none
  | 0, some _ => none
  | fuel + 1, some p =>
    match heap[p]? with
    | none => none
    | some e => if e.key = key then some (some p) else chain_find heap key fuel e.cc_next

/-- The entry stored for `key`: what the walk of the bucket `lru_cache_hash (cache, key)` finds. -/
def bucket_lookup (s : State) (key : List Nat) : Option (Option Nat) :=
  match s.cache.values[lru_cache_hash s.cache key]? with
  | none => none
  | some chain => chain_find s.heap key s.heap.length chain

/-- The links of the order list point forward through `next` and backward
through `prev`, inside the entry store. -/
def Links (heap : List lru_cache_entry_t) : Prop :=
  ∀ (i : Nat) (e : lru_cache_entry_t), heap[i]? = some e →
    (∀ j, e.next = some j → i < j ∧ j < heap.length) ∧ (∀ j, e.prev = some j → j < i)

/-- No entry has a collision-chain link. -/
def NoCC (heap : List lru_cache_entry_t) : Prop :=
  ∀ (i : Nat) (e : lru_cache_entry_t), heap[i]? = some e → e.cc_next = none ∧ e.cc_prev = none

/-- Every bucket head is an entry of that bucket, and the youngest one. -/
def Buckets (cache : lru_cache_t) (heap : List lru_cache_entry_t) : Prop :=
  ∀ (h p : Nat), cache.values[h]? = some (some p) →
    ∃ e : lru_cache_entry_t, heap[p]? = some e ∧ lru_cache_hash cache e.key = h ∧
      ∀ (i : Nat) (e1 : lru_cache_entry_t), heap[i]? = some e1 →
        lru_cache_hash cache e1.key = h → i ≤ p

/-- The shape every reachable memory has. -/
structure Inv (s : State) : Prop where
  len : s.cache.values.length = s.cache.max_values
  pos : 0 < s.cache.max_values
  buckets : Buckets s.cache s.heap
  nocc : NoCC s.heap
  links : Links s.heap
  first : ∀ j, s.cache.first = some j → j < s.heap.length
  last : ∀ j, s.cache.last = some j → j < s.heap.length

/-- Two entry stores with the same keys, creation times and chain links at every index. -/
def SameData (heap heap1 : List lru_cache_entry_t) : Prop :=
  heap1.length = heap.length ∧
  ∀ (i : Nat) (e : lru_cache_entry_t), heap[i]? = some e →
    ∃ e1 : lru_cache_entry_t, heap1[i]? = some e1 ∧ e1.key = e.key ∧ e1.mtime = e.mtime ∧
      e1.cc_next = e.cc_next ∧ e1.cc_prev = e.cc_prev

/-- What `lru_cache_get` reads of an entry: its key, creation time and value. -/
def entry_data (e : lru_cache_entry_t) : List Nat × Int × Nat :=
  (e.key, e.mtime, e.value)

/-- The pointer and error code `lru_cache_get` produces when the bucket of
`key` holds at most its head, whose data is `hd`. -/
def get_core (cache : lru_cache_t) (hd : Option (List Nat × Int × Nat)) (key : List Nat)
    (flags : Nat) (env : Env) : Nat × Option Int :=
  if LRU_CACHE_RDLOCK flags env ≠ 0 then (0, some (LRU_CACHE_RDLOCK flags env))
  else if LRU_CACHE_UNLOCK flags env ≠ 0 then (0, some (LRU_CACHE_UNLOCK flags env))
  else
    match hd with
    | none => (0, none)
    | some (k, mtime, value) =>
      if k = key ∧ ¬ (mtime < cache.mtime ∨ mtime + cache.ttl < env.now) then (value, none)
      else (0, none)

/-- The key and creation time of an entry. -/
def key_time (e : lru_cache_entry_t) : List Nat × Int := (e.key, e.mtime)

/-- The calls that may follow an `lru_cache_empty` read at clock `t` while `key`
is not set again: any call but an `lru_cache_set` of `key`, with the clock of a
later `lru_cache_empty` not running backwards. -/
def later_call (key : List Nat) (t : Int) : Op → Prop
  | .set k _ _ _ => k ≠ key
  | .empty _ env => t ≤ env.now
  | _ => True

/-- Every entry of `key` was created before `t`, and the epoch is not before `t`. -/
def Invalidated (key : List Nat) (t : Int) (s : State) : Prop :=
  (∀ x ∈ s.heap.map key_time, x.1 = key → x.2 < t) ∧ t ≤ s.cache.mtime

/-- The memory of a session that never returns: no bucket, no entry. -/
def null_state : State :=
  { cache :=
      { mtime := 0, ttl := 0, seed := 0, max_size := 0, size_cnt := 0, max_values := 0,
        value_cnt := 0, values := [], first := none, last := none, size_func := none,
        compare_func := false, destroy_func := false }
    heap := []
    released := [] }

/-- The memory at the end of a session. -/
def session_state (max_values max_size : Nat) (cenv : CreateEnv) (ops : List Op) : State :=
  match session max_values max_size cenv ops with
  | some (_, s) => s
  | none => null_state

/-- The clock reading used in the worked sessions. -/
def t0 : Int := 1700000000

/-- The key `"a"`. -/
def key_a : List Nat := [97]

/-- The key `"b"`. -/
def key_b : List Nat := [98]

/-- The key `"f"`. -/
def key_f : List Nat := [102]

/-- The key `"j"`. -/
def key_j : List Nat := [106]

/-- The call `lru_cache_set (cache, key, value, LRU_CACHE_FLAG_DONT_FREE, err)` at clock
reading `now`, nothing failing. -/
def set_at (key : List Nat) (value : Nat) (now : Int) : Op :=
  .set key value LRU_CACHE_FLAG_DONT_FREE (env_ok now)

/-- The memory after `lru_cache_create (128, 0, err)` and one `lru_cache_set` of
`"a"` to the value 1, both at clock reading `t0`. -/
def demo_state : State :=
  session_state 128 0 (cenv_ok t0) [set_at key_a 1 t0]

/-- The entry of `"a"` in `demo_state`. -/
def demo_entry : lru_cache_entry_t :=
  { mtime := t0, key := key_a, value := 1, cc_prev := none, cc_next := none,
    prev := none, next := none }

/-- Calls made after `demo_state` was emptied at `t0 + 1`: `"b"` is set, `"b"` is
removed, and the cache is emptied once more at `t0 + 3`. -/
def demo_later : List Op :=
  [set_at key_b 2 (t0 + 1), .unset key_b LRU_CACHE_FLAG_NONE (env_ok (t0 + 2)),
   .empty LRU_CACHE_FLAG_NONE (env_ok (t0 + 3))]

/-- The memory after `demo_state` was emptied at `t0 + 1` and `demo_later` ran. -/
def demo_after : State :=
  (run (lru_cache_empty demo_state LRU_CACHE_FLAG_NONE (env_ok (t0 + 1))).st demo_later).getD
    null_state

/-- A sizing hook for which every value has size 600000. -/
def size_600000 : Nat → Nat := fun _ => 600000

/-- The key of test number `i`: the four bytes of `k000`, `k001`, ... -/
def test_key (i : Nat) : List Nat :=
  [107, 48 + i / 100, 48 + (i / 10) % 10, 48 + i % 10]

/-- The calls `lru_cache_set (cache, test_key i, i + 1, LRU_CACHE_FLAG_DONT_FREE, err)`
for `i = 0, ..., n - 1`, all at clock reading `now` and with nothing failing. -/
def test_sets (n : Nat) (now : Int) : List Op :=
  (List.range n).map (fun i => Op.set (test_key i) (i + 1) LRU_CACHE_FLAG_DONT_FREE (env_ok now))

/-! ## Destruction (lines 270-314) -/

/-- What `lru_cache_destroy` hands back: the return value, the code stored
through `err`, the values passed to `destroy_func` so far (oldest first) and
the entries passed to `free`, in order. -/
structure DestroyResult where
  ret : Int
  err : Option Int
  released : List Nat
  freed : List Nat
deriving DecidableEq, Repr

/-- The inner loop of `lru_cache_destroy` (lines 288-298) from `entry` on; it
advances along `next`.  The state is `value_cnt` (an `unsigned int`), the
released values and the freed entries; reading an entry that was already
freed has no result. -/
def destroy_chain (heap : List lru_cache_entry_t) (flags : Nat) :
    Nat → Option Nat → Nat → List Nat → List Nat → Option (Nat × List Nat × List Nat)
  | _, none, value_cnt, released, freed => some (value_cnt, released, freed)
  | 0, some _, _, _, _ => none
  | fuel + 1, some p, value_cnt, released, freed =>
    if p ∈ freed then none
    else
      match heap[p]? with
      | none => none
      | some e =>
        let released1 :=
          if e.value ≠ 0 ∧ flags &&& LRU_CACHE_FLAG_DONT_FREE = 0 then released ++ [e.value]
          else released
        destroy_chain heap flags fuel e.next ((value_cnt + U32 - 1) % U32) released1
          (freed ++ [p])

/-- The outer loop of `lru_cache_destroy` (lines 282-301) from bucket `cnt` on,
with `todo` buckets left below `max_values`. -/
def destroy_loop (cache : lru_cache_t) (heap : List lru_cache_entry_t) (flags : Nat) :
    Nat → Nat → Nat → List Nat → List Nat → Option (Nat × List Nat × List Nat)
  | 0, _, value_cnt, released, freed => some (value_cnt, released, freed)
  | todo + 1, cnt, value_cnt, released, freed =>
    if value_cnt > 0 then
      match cache.values[cnt]? with
      | none => none
      | some chain =>
        match destroy_chain heap flags heap.length chain value_cnt released freed with
        | none => none
        | some (value_cnt1, released1, freed1) =>
          destroy_loop cache heap flags todo (cnt + 1) value_cnt1 released1 freed1
    else some (value_cnt, released, freed)

/-- The function `lru_cache_destroy (cache, flags, err)`; `rwlock_destroy_ret` is what
`pthread_rwlock_destroy` returns (0 in a build without threads). -/
def lru_cache_destroy (s : State) (flags : Nat) (rwlock_destroy_ret : Int) :
    Option DestroyResult :=
  if flags &&& LRU_CACHE_FLAG_DONT_FREE = 0 ∧ s.cache.destroy_func = false then none
  else
    match destroy_loop s.cache s.heap flags s.cache.max_values 0 s.cache.value_cnt
        s.released [] with
    | none => none
    | some (_, released, freed) =>
      if rwlock_destroy_ret ≠ 0 then some ⟨-1, some rwlock_destroy_ret, released, freed⟩
      else some ⟨0, none, released, freed⟩

/-! ## The reference MurmurHash3 x86_32

Written from the published description of the algorithm, not from the source:
the key is cut into `len / 4` little-endian 32-bit words read by position, each
word is scrambled and folded into the state, the `len % 4` trailing bytes are
combined into one more word, the length is mixed in and the state is
finalized.  All arithmetic is modulo `2 ^ 32`. -/

/-- Rotation to the left of a 32-bit word by `r` bits, as arithmetic. -/
def ref_rotl (x r : Nat) : Nat :=
  x * 2 ^ r % 2 ^ 32 + x / 2 ^ (32 - r)

/-- The little-endian 32-bit word number `i` of the key. -/
def ref_word (key : List Nat) (i : Nat) : Nat :=
  key.getD (4 * i) 0 + 256 * key.getD (4 * i + 1) 0 + 65536 * key.getD (4 * i + 2) 0
    + 16777216 * key.getD (4 * i + 3) 0

/-- The scramble of one word: times `0xcc9e2d51`, rotate by 15, times `0x1b873593`. -/
def ref_scramble (k : Nat) : Nat :=
  ref_rotl (k * 0xcc9e2d51 % 2 ^ 32) 15 * 0x1b873593 % 2 ^ 32

/-- One round: xor the scrambled word in, rotate by 13, times 5 plus `0xe6546b64`. -/
def ref_round (h k : Nat) : Nat :=
  (ref_rotl (h ^^^ ref_scramble k) 13 * 5 + 0xe6546b64) % 2 ^ 32

/-- The state after all whole words. -/
def ref_body (key : List Nat) (seed : Nat) : Nat :=
  (List.range (key.length / 4)).foldl (fun h i => ref_round h (ref_word key i)) seed

/-- The trailing bytes, byte number `i` shifted to bit `8 * i`, all xored together. -/
def ref_tail_word (key : List Nat) : Nat :=
  (List.range (key.length % 4)).foldl
    (fun k i => k ^^^ (key.getD (4 * (key.length / 4) + i) 0 * 2 ^ (8 * i))) 0

/-- The finalizer: xor-shift by 16, times `0x85ebca6b`, xor-shift by 13, times
`0xc2b2ae35`, xor-shift by 16. -/
def ref_fmix (h : Nat) : Nat :=
  let h1 := (h ^^^ (h / 2 ^ 16)) * 0x85ebca6b % 2 ^ 32
  let h2 := (h1 ^^^ (h1 / 2 ^ 13)) * 0xc2b2ae35 % 2 ^ 32
  h2 ^^^ (h2 / 2 ^ 16)

/-- The reference digest of `key` under `seed`. -/
def MurmurHash3_x86_32_ref (key : List Nat) (seed : Nat) : Nat :=
  let h := ref_body key seed
  let h := if key.length % 4 = 0 then h else h ^^^ ref_scramble (ref_tail_word key)
  ref_fmix (h ^^^ (key.length % 2 ^ 32))

/-! ## More worked sessions -/

/-- The key `"c"`. -/
def key_c : List Nat := [99]

/-- The key `"d"`. -/
def key_d : List Nat := [100]

/-- The key `"test"`. -/
def key_test : List Nat := [116, 101, 115, 116]

/-- The number of entries in all bucket chains. -/
def bucket_entries (s : State) : Nat :=
  ((s.cache.values.map (chain_list s.heap s.heap.length)).flatten).length

/-- The call `lru_cache_set (cache, key, value, LRU_CACHE_FLAG_NONE, err)` at clock
reading `now`, nothing failing. -/
def set_free_at (key : List Nat) (value : Nat) (now : Int) : Op :=
  .set key value LRU_CACHE_FLAG_NONE (env_ok now)

/-- A session that installs a destroy hook and then sets `"a"` to 1 and `"b"` to 2
without `LRU_CACHE_FLAG_DONT_FREE`. -/
def hook_ops : List Op :=
  [.set_destroy_func true LRU_CACHE_FLAG_NONE (env_ok t0), set_free_at key_a 1 t0,
   set_free_at key_b 2 t0]

/-- The memory after `hook_ops` on a cache of 128 buckets. -/
def hook_state : State :=
  session_state 128 0 (cenv_ok t0) hook_ops

/-- The session `set a, set b, set c, set b, unset c, unset b`: the second set of
`"b"` unlinks its entry, which keeps its old links, and the removal of `"b"`
then writes through them. -/
def stale_ops : List Op :=
  [set_at key_a 1 t0, set_at key_b 2 t0, set_at key_c 3 t0, set_at key_b 4 t0,
   .unset key_c LRU_CACHE_FLAG_NONE (env_ok t0), .unset key_b LRU_CACHE_FLAG_NONE (env_ok t0)]

/-- An environment whose lock call reports the error code 35 (`EDEADLK`) and in
which nothing else fails. -/
def env_lock_fails (now : Int) : Env :=
  { now := now, lock_ret := 35, unlock_ret := 0, calloc_ok := true, strdup_ok := true,
    errno := 0 }

/-- A sizing hook: the size of the value `v` is `100 * v`. -/
def size_times_100 : Nat → Nat := fun v => 100 * v

/-- The memory after a sizing hook was installed and `"a"` was set to 1 on a
cache with `max_size = 1048576`. -/
def sized_state : State :=
  session_state 128 1048576 (cenv_ok t0)
    [.set_size_func (some size_times_100) LRU_CACHE_FLAG_NONE (env_ok t0), set_at key_a 1 t0]

/-- The memory after `lru_cache_create (128, 0, err)` and one `lru_cache_set` of
`"f"` to the value 1, both at clock reading `t0`. -/
def collide_state : State :=
  session_state 128 0 (cenv_ok t0) [set_at key_f 1 t0]

/-- The entry of `"f"` in `collide_state`. -/
def collide_entry : lru_cache_entry_t :=
  { mtime := t0, key := key_f, value := 1, cc_prev := none, cc_next := none,
    prev := none, next := none }

/-- What `lru_cache_set` of `"j"` to the value 2 hands back on `collide_state`
(`"j"` falls into the bucket of `"f"`). -/
def collide_result : Result Int :=
  (lru_cache_set collide_state key_j 2 LRU_CACHE_FLAG_DONT_FREE (env_ok t0)).getD
    { ret := -1, err := none, st := null_state }

/-- The memory after a sizing hook was installed and `"b"`, then `"a"`, were set
to 1 on a cache with `max_size = 1048576`: the order list is `"b"`, `"a"`. -/
def sized_pair_state : State :=
  session_state 128 1048576 (cenv_ok t0)
    [.set_size_func (some size_times_100) LRU_CACHE_FLAG_NONE (env_ok t0),
      set_at key_b 1 t0, set_at key_a 1 t0]


/-! ## Theorems -/

theorem store_eq_some {heap heap1 : List lru_cache_entry_t} {q : Nat}
    {f : lru_cache_entry_t → lru_cache_entry_t} :
    store heap q f = some heap1 ↔ ∃ e, heap[q]? = some e ∧ heap1 = heap.set q (f e) := by
  unfold store
  cases h : heap[q]? with
  | none => simp
  | some e => simp [eq_comm]

theorem store_length {heap heap1 : List lru_cache_entry_t} {q : Nat}
    {f : lru_cache_entry_t → lru_cache_entry_t} (hs : store heap q f = some heap1) :
    heap1.length = heap.length := by
  obtain ⟨e, _, rfl⟩ := store_eq_some.1 hs
  simp

theorem store_get {heap heap1 : List lru_cache_entry_t} {q : Nat}
    {f : lru_cache_entry_t → lru_cache_entry_t} (hs : store heap q f = some heap1) (i : Nat) :
    heap1[i]? = if i = q then (heap[q]?).map f else heap[i]? := by
  obtain ⟨e, he, rfl⟩ := store_eq_some.1 hs
  by_cases hi : i = q
  · subst hi
    have hlt : i < heap.length := by
      rcases List.getElem?_eq_some_iff.1 he with ⟨h, _⟩
      exact h
    simp [he, hlt]
  · have : q ≠ i := fun h => hi h.symm
    simp [hi, List.getElem?_set_ne this]

theorem store_isSome {heap : List lru_cache_entry_t} {q : Nat}
    (f : lru_cache_entry_t → lru_cache_entry_t) (hq : q < heap.length) :
    ∃ heap1, store heap q f = some heap1 := by
  unfold store
  rw [List.getElem?_eq_getElem hq]
  exact ⟨_, rfl⟩

theorem sameData_refl (heap : List lru_cache_entry_t) : SameData heap heap :=
  ⟨rfl, fun _ e he => ⟨e, he, rfl, rfl, rfl, rfl⟩⟩

theorem sameData_trans {a b c : List lru_cache_entry_t} (h1 : SameData a b) (h2 : SameData b c) :
    SameData a c := by
  refine ⟨h2.1.trans h1.1, fun i e he => ?_⟩
  obtain ⟨e1, he1, k1, m1, n1, p1⟩ := h1.2 i e he
  obtain ⟨e2, he2, k2, m2, n2, p2⟩ := h2.2 i e1 he1
  exact ⟨e2, he2, k2.trans k1, m2.trans m1, n2.trans n1, p2.trans p1⟩

theorem sameData_store {heap heap1 : List lru_cache_entry_t} {q : Nat}
    {f : lru_cache_entry_t → lru_cache_entry_t} (hs : store heap q f = some heap1)
    (hf : ∀ e, (f e).key = e.key ∧ (f e).mtime = e.mtime ∧ (f e).cc_next = e.cc_next ∧
      (f e).cc_prev = e.cc_prev) : SameData heap heap1 := by
  refine ⟨store_length hs, fun i e he => ?_⟩
  rw [store_get hs]
  by_cases hi : i = q
  · subst hi
    simp only [if_true, he, Option.map_some']
    exact ⟨f e, rfl, (hf e).1, (hf e).2.1, (hf e).2.2.1, (hf e).2.2.2⟩
  · simp only [hi, if_false]
    exact ⟨e, he, rfl, rfl, rfl, rfl⟩

theorem sameData_get_inv {heap heap1 : List lru_cache_entry_t} (h : SameData heap heap1)
    {i : Nat} {e1 : lru_cache_entry_t} (he1 : heap1[i]? = some e1) :
    ∃ e : lru_cache_entry_t, heap[i]? = some e ∧ e1.key = e.key ∧ e1.mtime = e.mtime ∧
      e1.cc_next = e.cc_next ∧ e1.cc_prev = e.cc_prev := by
  have hlt : i < heap.length := by
    rcases List.getElem?_eq_some_iff.1 he1 with ⟨hh, _⟩
    rw [h.1] at hh
    exact hh
  have he : heap[i]? = some heap[i] := List.getElem?_eq_getElem hlt
  obtain ⟨e2, he2, hk⟩ := h.2 i _ he
  rw [he1] at he2
  cases he2
  exact ⟨_, he, hk⟩

theorem noCC_same {heap heap1 : List lru_cache_entry_t} (h : NoCC heap)
    (hd : SameData heap heap1) : NoCC heap1 := by
  intro i e1 he1
  obtain ⟨e, he, _, _, hn, hp⟩ := sameData_get_inv hd he1
  have := h i e he
  exact ⟨hn.trans this.1, hp.trans this.2⟩

theorem buckets_same {c c1 : lru_cache_t} {heap heap1 : List lru_cache_entry_t}
    (h : Buckets c heap) (hd : SameData heap heap1)
    (hseed : c1.seed = c.seed) (hmax : c1.max_values = c.max_values)
    (hval : ∀ (b p : Nat), c1.values[b]? = some (some p) → c.values[b]? = some (some p)) :
    Buckets c1 heap1 := by
  have hh : ∀ k, lru_cache_hash c1 k = lru_cache_hash c k := by
    intro k; simp [lru_cache_hash, hseed, hmax]
  intro b p hb
  obtain ⟨e, he, hhash, hmaxi⟩ := h b p (hval b p hb)
  obtain ⟨e1, he1, hk, _⟩ := hd.2 p e he
  refine ⟨e1, he1, ?_, ?_⟩
  · rw [hh, hk]; exact hhash
  · intro i e2 he2 hh2
    obtain ⟨e3, he3, hk3, _⟩ := sameData_get_inv hd he2
    apply hmaxi i e3 he3
    rw [← hk3, ← hh]; exact hh2

theorem links_store {heap heap1 : List lru_cache_entry_t} {q : Nat}
    {f : lru_cache_entry_t → lru_cache_entry_t} (h : Links heap)
    (hs : store heap q f = some heap1)
    (hf : ∀ e, heap[q]? = some e →
      (∀ j, (f e).next = some j → q < j ∧ j < heap.length) ∧
      (∀ j, (f e).prev = some j → j < q)) : Links heap1 := by
  intro i e1 he1
  rw [store_get hs] at he1
  rw [store_length hs]
  by_cases hi : i = q
  · subst hi
    simp only [if_true] at he1
    cases he : heap[i]? with
    | none => simp [he] at he1
    | some e =>
      simp only [he, Option.map_some', Option.some.injEq] at he1
      subst he1
      exact hf e he
  · simp only [hi, if_false] at he1
    exact h i e1 he1

theorem unset_unlock_st (flags : Nat) (env : Env) (res : Int) (err : Option Int) (st : State) :
    (unset_unlock flags env res err st).st = st := by
  unfold unset_unlock
  simp only
  split <;> rfl

theorem set_unlock_st (flags : Nat) (env : Env) (res : Int) (err : Option Int) (st : State) :
    (set_unlock flags env res err st).st = st := by
  unfold set_unlock
  simp only
  split <;> rfl

theorem sameData_store_opt {heap heap1 : List lru_cache_entry_t} {q : Option Nat}
    {f : lru_cache_entry_t → lru_cache_entry_t} (hs : store_opt heap q f = some heap1)
    (hf : ∀ e, (f e).key = e.key ∧ (f e).mtime = e.mtime ∧ (f e).cc_next = e.cc_next ∧
      (f e).cc_prev = e.cc_prev) : SameData heap heap1 := by
  cases q with
  | none =>
    simp only [LruCache.store_opt, Option.some.injEq] at hs
    subst hs
    exact sameData_refl _
  | some q => exact sameData_store hs hf

theorem links_store_opt {heap heap1 : List lru_cache_entry_t} {q : Option Nat}
    {f : lru_cache_entry_t → lru_cache_entry_t} (h : Links heap)
    (hs : store_opt heap q f = some heap1)
    (hf : ∀ q1 e, q = some q1 → heap[q1]? = some e →
      (∀ j, (f e).next = some j → q1 < j ∧ j < heap.length) ∧
      (∀ j, (f e).prev = some j → j < q1)) : Links heap1 := by
  cases q with
  | none =>
    simp only [LruCache.store_opt, Option.some.injEq] at hs
    subst hs
    exact h
  | some q => exact links_store h hs (fun e he => hf q e rfl he)

theorem store_opt_length {heap heap1 : List lru_cache_entry_t} {q : Option Nat}
    {f : lru_cache_entry_t → lru_cache_entry_t} (hs : store_opt heap q f = some heap1) :
    heap1.length = heap.length := by
  cases q with
  | none =>
    simp only [store_opt, Option.some.injEq] at hs
    subst hs; rfl
  | some q => exact store_length hs

theorem get_lt {α : Type} {heap : List α} {i : Nat} {e : α}
    (h : heap[i]? = some e) : i < heap.length := by
  rcases List.getElem?_eq_some_iff.1 h with ⟨hh, _⟩
  exact hh

theorem unset_chain_nocc {heap heap2 : List lru_cache_entry_t} {p ch : Nat}
    {e : lru_cache_entry_t} {chain : Option Nat}
    (hn : e.cc_next = none ∧ e.cc_prev = none)
    (h : unset_chain heap p ch e = some (heap2, chain)) :
    heap2 = heap ∧ chain = (if p = ch then none else some ch) := by
  unfold unset_chain at h
  simp only [hn.1, hn.2, store_opt, Option.some.injEq, Prod.mk.injEq] at h
  exact ⟨h.1.symm, h.2.symm⟩

theorem unset_order_spec {cache : lru_cache_t} {heap heap4 : List lru_cache_entry_t} {p : Nat}
    {first last : Option Nat} (hl : Links heap)
    (hf : ∀ j, cache.first = some j → j < heap.length)
    (hla : ∀ j, cache.last = some j → j < heap.length)
    (h : unset_order cache heap p = some (heap4, first, last)) :
    SameData heap heap4 ∧ Links heap4 ∧ (∀ j, first = some j → j < heap4.length) ∧
      (∀ j, last = some j → j < heap4.length) := by
  unfold unset_order at h
  split at h
  · cases h
  · rename_i e he
    simp only at h
    split at h
    · cases h
    · rename_i heap3 h3
      split at h
      · cases h
      · rename_i heap4' h4
        simp only [Option.some.injEq, Prod.mk.injEq] at h
        obtain ⟨rfl, hfirst, hlast⟩ := h
        have hle := hl p e he
        have hp : p < heap.length := get_lt he
        have d3 : SameData heap heap3 := sameData_store_opt h3 (fun _ => ⟨rfl, rfl, rfl, rfl⟩)
        have d4 : SameData heap3 heap4' := sameData_store_opt h4 (fun _ => ⟨rfl, rfl, rfl, rfl⟩)
        have l3 : Links heap3 := by
          refine links_store_opt hl h3 ?_
          intro q1 e1 hq he1
          have hq1 : q1 < p := hle.2 q1 hq
          have h1 := hl q1 e1 he1
          refine ⟨?_, ?_⟩
          · intro j hj
            simp only at hj
            have := hle.1 j hj
            omega
          · intro j hj
            simp only at hj
            exact h1.2 j hj
        have l4 : Links heap4' := by
          refine links_store_opt l3 h4 ?_
          intro q1 e1 hq he1
          have hq1 := hle.1 q1 hq
          have h1 := l3 q1 e1 he1
          refine ⟨?_, ?_⟩
          · intro j hj
            simp only at hj
            exact h1.1 j hj
          · intro j hj
            simp only at hj
            have := hle.2 j hj
            omega
        have len4 : heap4'.length = heap.length := (sameData_trans d3 d4).1
        refine ⟨sameData_trans d3 d4, l4, ?_, ?_⟩
        · intro j hj
          rw [len4]
          rw [← hfirst] at hj
          cases hprev : e.prev with
          | some q => simp only [hprev] at hj; exact hf j hj
          | none =>
            simp only [hprev] at hj
            split at hj
            · exact (hle.1 j hj).2
            · exact hf j hj
        · intro j hj
          rw [len4]
          rw [← hlast] at hj
          cases hnext : e.next with
          | some q => simp only [hnext] at hj; exact hla j hj
          | none =>
            simp only [hnext] at hj
            split at hj
            · have := hle.2 j hj; omega
            · exact hla j hj

theorem inv_unset {s : State} {key : List Nat} {flags : Nat} {env : Env} {r : Result Int}
    (hinv : Inv s) (h : lru_cache_unset s key flags env = some r) : Inv r.st := by
  unfold lru_cache_unset at h
  simp only at h
  split at h
  · cases h; exact hinv
  · split at h
    · cases h
    · cases h; rw [unset_unlock_st]; exact hinv
    · rename_i ch hv
      split at h
      · cases h
      · cases h; rw [unset_unlock_st]; exact hinv
      · rename_i p hloop
        split at h
        · cases h
        · rename_i e he
          split at h
          · cases h
          · rename_i heap2 chain hc
            obtain ⟨rfl, rfl⟩ := unset_chain_nocc (hinv.nocc p e he) hc
            split at h
            · cases h
            · rename_i heap4 first last ho
              cases h
              rw [unset_unlock_st]
              obtain ⟨d, l, f1, l1⟩ := unset_order_spec hinv.links hinv.first hinv.last ho
              refine ⟨?_, hinv.pos, ?_, noCC_same hinv.nocc d, l, f1, l1⟩
              · simp [hinv.len]
              · refine buckets_same hinv.buckets d rfl rfl ?_
                intro b q hb
                simp only at hb
                by_cases hbe : lru_cache_hash s.cache key = b
                · subst hbe
                  have hlt : lru_cache_hash s.cache key < s.cache.values.length := get_lt hv
                  rw [List.getElem?_set_self hlt] at hb
                  split at hb
                  · cases hb
                  · rw [hv]; exact hb
                · rw [List.getElem?_set_ne hbe] at hb
                  exact hb

theorem set_loop_chain (heap : List lru_cache_entry_t) (key : List Nat) :
    ∀ (fuel : Nat) (cur entry0 entry chain : Option Nat),
      set_loop heap key fuel cur entry0 = some (entry, chain) → chain = none := by
  intro fuel
  induction fuel with
  | zero =>
    intro cur entry0 entry chain h
    cases cur with
    | none =>
      simp only [set_loop, Option.some.injEq, Prod.mk.injEq] at h
      exact h.2.symm
    | some p => simp [set_loop] at h
  | succ n ih =>
    intro cur entry0 entry chain h
    cases cur with
    | none =>
      simp only [set_loop, Option.some.injEq, Prod.mk.injEq] at h
      exact h.2.symm
    | some p =>
      simp only [set_loop] at h
      split at h
      · cases h
      · exact ih _ _ _ _ h

theorem inv_set_replace {s s1 : State} {p value flags : Nat}
    (hinv : Inv s) (h : set_replace s p value flags = some s1) : Inv s1 := by
  unfold set_replace at h
  split at h
  · cases h
  · rename_i e he
    have hle := hinv.links p e he
    have hp : p < s.heap.length := get_lt he
    split at h
    · cases h
    · rename_i released _
      split at h
      · -- entry != cache->last
        simp only at h
        split at h
        · cases h
        · rename_i n hn
          have hpn := hle.1 n hn
          split at h
          · cases h
          · rename_i heap1 h1
            have d1 : SameData s.heap heap1 := sameData_store h1 (fun _ => ⟨rfl, rfl, rfl, rfl⟩)
            have l1 : Links heap1 := by
              refine links_store hinv.links h1 ?_
              intro e1 he1
              have hh := hinv.links n e1 he1
              refine ⟨fun j hj => hh.1 j hj, fun j hj => ?_⟩
              simp only at hj
              have := hle.2 j hj
              omega
            split at h
            · -- entry == cache->first
              split at h
              · cases h
              · rename_i heap2 h2
                cases h
                have d2 : SameData heap1 heap2 :=
                  sameData_store h2 (fun _ => ⟨rfl, rfl, rfl, rfl⟩)
                have l2 : Links heap2 := by
                  refine links_store l1 h2 ?_
                  intro e1 he1
                  have hh := l1 p e1 he1
                  exact ⟨fun j hj => hh.1 j hj, fun j hj => hh.2 j hj⟩
                have d := sameData_trans d1 d2
                refine ⟨hinv.len, hinv.pos, buckets_same hinv.buckets d rfl rfl (fun _ _ hb => hb),
                  noCC_same hinv.nocc d, l2, ?_, ?_⟩
                · intro j hj
                  simp only at hj
                  rw [d.1]
                  rw [hn] at hj
                  cases hj
                  exact hpn.2
                · intro j hj
                  rw [d.1]
                  exact hinv.last j hj
            · split at h
              · cases h
              · rename_i q hq
                have hqp := hle.2 q hq
                split at h
                · cases h
                · rename_i heap2 h2
                  split at h
                  · cases h
                  · rename_i heap3 h3
                    cases h
                    have d2 : SameData heap1 heap2 :=
                      sameData_store h2 (fun _ => ⟨rfl, rfl, rfl, rfl⟩)
                    have d3 : SameData heap2 heap3 :=
                      sameData_store h3 (fun _ => ⟨rfl, rfl, rfl, rfl⟩)
                    have l2 : Links heap2 := by
                      refine links_store l1 h2 ?_
                      intro e1 he1
                      have hh := l1 q e1 he1
                      refine ⟨fun j hj => ?_, fun j hj => hh.2 j hj⟩
                      simp only at hj
                      rw [hn] at hj
                      cases hj
                      rw [d1.1]
                      omega
                    have l3 : Links heap3 := by
                      refine links_store l2 h3 ?_
                      intro e1 he1
                      have hh := l2 p e1 he1
                      exact ⟨fun j hj => hh.1 j hj, fun j hj => hh.2 j hj⟩
                    have d := sameData_trans (sameData_trans d1 d2) d3
                    refine ⟨hinv.len, hinv.pos,
                      buckets_same hinv.buckets d rfl rfl (fun _ _ hb => hb),
                      noCC_same hinv.nocc d, l3, ?_, ?_⟩
                    · intro j hj
                      rw [d.1]
                      exact hinv.first j hj
                    · intro j hj
                      rw [d.1]
                      exact hinv.last j hj
      · split at h
        · cases h
        · rename_i heap1 h1
          cases h
          have d : SameData s.heap heap1 := sameData_store h1 (fun _ => ⟨rfl, rfl, rfl, rfl⟩)
          have l1 : Links heap1 := by
            refine links_store hinv.links h1 ?_
            intro e1 he1
            have hh := hinv.links p e1 he1
            exact ⟨fun j hj => hh.1 j hj, fun j hj => hh.2 j hj⟩
          refine ⟨hinv.len, hinv.pos, buckets_same hinv.buckets d rfl rfl (fun _ _ hb => hb),
            noCC_same hinv.nocc d, l1, ?_, ?_⟩
          · intro j hj
            rw [d.1]
            exact hinv.first j hj
          · intro j hj
            rw [d.1]
            exact hinv.last j hj

theorem get_append (heap : List lru_cache_entry_t) (x : lru_cache_entry_t) (i : Nat) :
    (heap ++ [x])[i]? = if i < heap.length then heap[i]? else if i = heap.length then some x
      else none := by
  by_cases h1 : i < heap.length
  · simp [h1, List.getElem?_append_left h1]
  · simp only [h1, if_false]
    have h2 : heap.length ≤ i := Nat.le_of_not_lt h1
    rw [List.getElem?_append_right h2]
    by_cases h3 : i = heap.length
    · simp [h3]
    · have : i - heap.length ≠ 0 := by omega
      simp only [h3, if_false]
      cases hh : i - heap.length with
      | zero => exact absurd hh this
      | succ n => simp

theorem inv_set_insert {s s1 : State} {key : List Nat} {value : Nat} {now : Int}
    (hinv : Inv s)
    (hlt : lru_cache_hash s.cache key < s.cache.values.length)
    (h : set_insert s (lru_cache_hash s.cache key) none key value now = some s1) : Inv s1 := by
  unfold set_insert at h
  simp only at h
  generalize hentry : fresh_entry now key = entry at h
  have hkey : entry.key = key := by rw [← hentry]; rfl
  have hnext : entry.next = none := by rw [← hentry]; rfl
  have hprev : entry.prev = none := by rw [← hentry]; rfl
  have hccn : entry.cc_next = none := by rw [← hentry]; rfl
  have hccp : entry.cc_prev = none := by rw [← hentry]; rfl
  -- the store with the fresh block appended
  have l0 : Links (s.heap ++ [entry]) := by
    intro i e he
    rw [get_append] at he
    rw [List.length_append, List.length_singleton]
    split at he
    · have hh := hinv.links i e he
      exact ⟨fun j hj => ⟨(hh.1 j hj).1, by have := (hh.1 j hj).2; omega⟩, hh.2⟩
    · split at he
      · cases he
        refine ⟨fun j hj => ?_, fun j hj => ?_⟩
        · rw [hnext] at hj; cases hj
        · rw [hprev] at hj; cases hj
      · cases he
  have n0 : NoCC (s.heap ++ [entry]) := by
    intro i e he
    rw [get_append] at he
    split at he
    · exact hinv.nocc i e he
    · split at he
      · cases he; exact ⟨hccn, hccp⟩
      · cases he
  have len0 : (s.heap ++ [entry]).length = s.heap.length + 1 := by simp
  have b0 : ∀ c1 : lru_cache_t,
      c1.values = s.cache.values.set (lru_cache_hash s.cache key) (some s.heap.length) →
      c1.seed = s.cache.seed → c1.max_values = s.cache.max_values →
      Buckets c1 (s.heap ++ [entry]) := by
    intro c1 hc1 hseed hmax b q hb
    rw [hc1] at hb
    have hh : ∀ k, lru_cache_hash c1 k = lru_cache_hash s.cache k := by
      intro k; simp [lru_cache_hash, hseed, hmax]
    by_cases hbe : lru_cache_hash s.cache key = b
    · subst hbe
      rw [List.getElem?_set_self hlt] at hb
      simp only [Option.some.injEq] at hb
      subst hb
      refine ⟨entry, by simp [get_append], by rw [hh, hkey], ?_⟩
      intro i e1 he1 _
      have := get_lt he1
      rw [len0] at this
      omega
    · rw [List.getElem?_set_ne hbe] at hb
      obtain ⟨e, he, hhash, hmaxi⟩ := hinv.buckets b q hb
      have hq : q < s.heap.length := get_lt he
      refine ⟨e, by simp [get_append, hq, he], by rw [hh]; exact hhash, ?_⟩
      intro i e1 he1 hh1
      rw [get_append] at he1
      rw [hh] at hh1
      split at he1
      · exact hmaxi i e1 he1 hh1
      · split at he1
        · cases he1
          rw [hkey] at hh1
          exact absurd hh1 hbe
        · cases he1
  have b1 : ∀ (c1 : lru_cache_t) (heapN : List lru_cache_entry_t),
      SameData (s.heap ++ [entry]) heapN →
      c1.values = s.cache.values.set (lru_cache_hash s.cache key) (some s.heap.length) →
      c1.seed = s.cache.seed → c1.max_values = s.cache.max_values → Buckets c1 heapN :=
    fun c1 heapN d h1 h2 h3 => buckets_same (b0 c1 h1 h2 h3) d rfl rfl (fun _ _ hb => hb)
  split at h
  · cases h
  · rename_i heap1 first last happ
    have happ_spec : SameData (s.heap ++ [entry]) heap1 ∧ Links heap1 ∧
        (∀ j, first = some j → j < heap1.length) ∧ (∀ j, last = some j → j < heap1.length) := by
      unfold set_append at happ
      split at happ
      · rename_i l hl
        have hll := hinv.last l hl
        split at happ
        · cases happ
        · rename_i h1 hs1
          split at happ
          · cases happ
          · rename_i h2 hs2
            simp only [Option.some.injEq, Prod.mk.injEq] at happ
            obtain ⟨rfl, rfl, rfl⟩ := happ
            have d1 : SameData (s.heap ++ [entry]) h1 :=
              sameData_store hs1 (fun _ => ⟨rfl, rfl, rfl, rfl⟩)
            have d2 : SameData h1 h2 := sameData_store hs2 (fun _ => ⟨rfl, rfl, rfl, rfl⟩)
            have l1 : Links h1 := by
              refine links_store l0 hs1 ?_
              intro e1 he1
              have hh := l0 l e1 he1
              refine ⟨fun j hj => ?_, fun j hj => hh.2 j hj⟩
              simp only [Option.some.injEq] at hj
              subst hj
              rw [len0]
              omega
            have l2 : Links h2 := by
              refine links_store l1 hs2 ?_
              intro e1 he1
              have hh := l1 s.heap.length e1 he1
              refine ⟨fun j hj => hh.1 j hj, fun j hj => ?_⟩
              simp only [Option.some.injEq] at hj
              subst hj
              exact hll
            have d := sameData_trans d1 d2
            refine ⟨d, l2, ?_, ?_⟩
            · intro j hj
              rw [d.1, len0]
              have := hinv.first j hj
              omega
            · intro j hj
              cases hj
              rw [d.1, len0]
              omega
      · simp only [Option.some.injEq, Prod.mk.injEq] at happ
        obtain ⟨rfl, rfl, rfl⟩ := happ
        refine ⟨sameData_refl _, l0, ?_, ?_⟩ <;>
        · intro j hj
          cases hj
          rw [len0]
          omega
    obtain ⟨d1, l1, hf1, hl1⟩ := happ_spec
    split at h
    · cases h
    · rename_i heap2 hs2
      simp only [Option.some.injEq] at h
      subst h
      have d2 : SameData heap1 heap2 := sameData_store hs2 (fun _ => ⟨rfl, rfl, rfl, rfl⟩)
      have l2 : Links heap2 := by
        refine links_store l1 hs2 ?_
        intro e1 he1
        have hh := l1 s.heap.length e1 he1
        exact ⟨fun j hj => hh.1 j hj, fun j hj => hh.2 j hj⟩
      have d := sameData_trans d1 d2
      refine ⟨?_, hinv.pos, ?_, noCC_same n0 d, l2, ?_, ?_⟩
      · simp [hinv.len]
      · exact b1 _ _ d rfl rfl rfl
      · intro j hj
        rw [d2.1]
        exact hf1 j hj
      · intro j hj
        rw [d2.1]
        exact hl1 j hj

theorem inv_set {s : State} {key : List Nat} {value flags : Nat} {env : Env} {r : Result Int}
    (hinv : Inv s) (h : lru_cache_set s key value flags env = some r) : Inv r.st := by
  unfold lru_cache_set at h
  simp only at h
  split at h
  · cases h
  · split at h
    · cases h; exact hinv
    · split at h
      · cases h
      · rename_i chain0 hv
        split at h
        · cases h
        · rename_i entry chain hloop
          have hchain := set_loop_chain _ _ _ _ _ _ _ hloop
          subst hchain
          split at h
          · cases h
          · split at h
            · cases h
            · split at h
              · rename_i p
                split at h
                · cases h
                · rename_i s1 hr
                  cases h
                  rw [set_unlock_st]
                  exact inv_set_replace hinv hr
              · split at h
                · cases h; rw [set_unlock_st]; exact hinv
                · split at h
                  · cases h; rw [set_unlock_st]; exact hinv
                  · split at h
                    · cases h
                    · rename_i s1 hi
                      cases h
                      rw [set_unlock_st]
                      exact inv_set_insert hinv (get_lt hv) hi

theorem inv_set_opt {s : State} (upd : lru_cache_t → lru_cache_t) (flags : Nat) (env : Env)
    (hinv : Inv s)
    (hu : (upd s.cache).values = s.cache.values ∧ (upd s.cache).seed = s.cache.seed ∧
      (upd s.cache).max_values = s.cache.max_values ∧ (upd s.cache).first = s.cache.first ∧
      (upd s.cache).last = s.cache.last) :
    Inv (LRU_CACHE_SET_OPT upd s flags env).st := by
  have key : Inv { s with cache := upd s.cache } := by
    obtain ⟨h1, h2, h3, h4, h5⟩ := hu
    refine ⟨?_, ?_, ?_, hinv.nocc, hinv.links, ?_, ?_⟩
    · simp only [h1, h3]; exact hinv.len
    · simp only [h3]; exact hinv.pos
    · exact buckets_same hinv.buckets (sameData_refl _) h2 h3 (fun b p hb => by rw [h1] at hb; exact hb)
    · simp only [h4]; exact hinv.first
    · simp only [h5]; exact hinv.last
  unfold LRU_CACHE_SET_OPT
  simp only
  split
  · exact hinv
  · split <;> exact key

theorem inv_create {max_values max_size : Nat} {env : CreateEnv} {s : State}
    (h : (lru_cache_create max_values max_size env).1 = some s) : Inv s := by
  unfold lru_cache_create at h
  split at h
  · cases h
  · simp only at h
    split at h
    · cases h
    · split at h
      · cases h
      · split at h
        · cases h
        · split at h
          · cases h
          · simp only [Option.some.injEq] at h
            subst h
            rename_i hmv _ _ _ _
            refine ⟨by simp, ?_, ?_, ?_, ?_, ?_, ?_⟩
            · simp only
              split
              · omega
              · decide
            · intro b p hb
              simp only at hb
              have := get_lt hb
              rw [List.getElem?_eq_getElem this] at hb
              simp at hb
            · intro i e he; simp at he
            · intro i e he; simp at he
            · intro j hj; simp at hj
            · intro j hj; simp at hj

theorem inv_step {s : State} {op : Op} {r : Result Int} (hinv : Inv s)
    (h : step s op = some r) : Inv r.st := by
  cases op with
  | set key value flags env => exact inv_set hinv h
  | unset key flags env => exact inv_unset hinv h
  | empty flags env =>
    simp only [step, Option.some.injEq] at h
    subst h
    exact inv_set_opt _ flags env hinv ⟨rfl, rfl, rfl, rfl, rfl⟩
  | set_ttl ttl flags env =>
    simp only [step, Option.some.injEq] at h
    subst h
    exact inv_set_opt _ flags env hinv ⟨rfl, rfl, rfl, rfl, rfl⟩
  | set_size_func f flags env =>
    simp only [step, Option.some.injEq] at h
    subst h
    exact inv_set_opt _ flags env hinv ⟨rfl, rfl, rfl, rfl, rfl⟩
  | set_compare_func f flags env =>
    simp only [step, Option.some.injEq] at h
    subst h
    exact inv_set_opt _ flags env hinv ⟨rfl, rfl, rfl, rfl, rfl⟩
  | set_destroy_func f flags env =>
    simp only [step, Option.some.injEq] at h
    subst h
    exact inv_set_opt _ flags env hinv ⟨rfl, rfl, rfl, rfl, rfl⟩

theorem inv_reachable {s : State} (h : Reachable s) : Inv s := by
  induction h with
  | create mv ms env s hc => exact inv_create hc
  | step s op r _ hs ih => exact inv_step ih hs

theorem hash_lt {s : State} (hinv : Inv s) (key : List Nat) :
    lru_cache_hash s.cache key < s.cache.values.length := by
  rw [hinv.len]
  exact Nat.mod_lt _ hinv.pos

theorem bucket_some {s : State} (hinv : Inv s) (key : List Nat) :
    ∃ chain, s.cache.values[lru_cache_hash s.cache key]? = some chain :=
  ⟨_, List.getElem?_eq_getElem (hash_lt hinv key)⟩

theorem get_head {s : State} (hinv : Inv s) (key : List Nat) (flags : Nat) (env : Env)
    {chain : Option Nat} (hc : s.cache.values[lru_cache_hash s.cache key]? = some chain) :
    (lru_cache_get s key flags env).map (fun r => (r.ret, r.err)) =
      some (get_core s.cache (chain.bind (fun p => (s.heap[p]?).map entry_data)) key flags env) := by
  unfold lru_cache_get get_core
  simp only [hc]
  by_cases hl : LRU_CACHE_RDLOCK flags env ≠ 0
  · simp [hl]
  · simp only [hl, if_false]
    cases chain with
    | none =>
      have : get_loop s.cache s.heap key env.now s.heap.length none = some none := by
        cases s.heap.length <;> rfl
      simp only [this, Option.bind]
      split <;> rfl
    | some p =>
      obtain ⟨e, he, _, _⟩ := hinv.buckets _ p hc
      have hp := get_lt he
      obtain ⟨n, hn⟩ : ∃ n, s.heap.length = n + 1 := ⟨s.heap.length - 1, by omega⟩
      have hcc := (hinv.nocc p e he).1
      have hnone : get_loop s.cache s.heap key env.now n none = some none := by
        cases n <;> rfl
      rw [hn]
      simp only [get_loop, he, hcc, hnone, Option.bind, Option.map_some', entry_data]
      by_cases hk : e.key = key
      · by_cases hvis : e.mtime < s.cache.mtime ∨ e.mtime + s.cache.ttl < env.now
        · simp only [hk, hvis, if_true]
          split <;> simp
        · simp only [hk, hvis, if_false, if_true, he]
          split <;> simp
      · simp only [hk, if_false]
        split <;> simp

theorem get_total {s : State} (hinv : Inv s) (key : List Nat) (flags : Nat) (env : Env) :
    ∃ r, lru_cache_get s key flags env = some r := by
  obtain ⟨chain, hc⟩ := bucket_some hinv key
  have := get_head hinv key flags env hc
  cases h : lru_cache_get s key flags env with
  | none => rw [h] at this; simp at this
  | some r => exact ⟨r, rfl⟩

theorem unset_loop_none {heap : List lru_cache_entry_t} {key : List Nat} (hl : Links heap) :
    ∀ (fuel ch : Nat), ch < heap.length → heap.length ≤ fuel + ch →
      (∀ (i : Nat) (e : lru_cache_entry_t), ch ≤ i → heap[i]? = some e → e.key ≠ key) →
      unset_loop heap key fuel (some ch) = some none := by
  intro fuel
  induction fuel with
  | zero => intro ch h1 h2; omega
  | succ n ih =>
    intro ch h1 h2 hk
    have he : heap[ch]? = some heap[ch] := List.getElem?_eq_getElem h1
    have hne := hk ch _ (Nat.le_refl _) he
    simp only [unset_loop, he, hne, ne_eq, not_false_eq_true, if_true]
    cases hnx : (heap[ch]).next with
    | none => cases n <;> rfl
    | some j =>
      have hj := (hl ch _ he).1 j hnx
      exact ih j hj.2 (by omega) (fun i e hi => hk i e (by omega))

theorem unset_order_some (cache : lru_cache_t) {heap : List lru_cache_entry_t} {p : Nat}
    {e : lru_cache_entry_t} (hl : Links heap) (he : heap[p]? = some e) :
    ∃ x, unset_order cache heap p = some x := by
  have hle := hl p e he
  have hp := get_lt he
  unfold unset_order
  simp only [he]
  have h3 : ∃ heap3, store_opt heap e.prev (fun x => { x with next := e.next }) = some heap3 := by
    cases hprev : e.prev with
    | none => exact ⟨heap, rfl⟩
    | some q =>
      have := hle.2 q hprev
      exact store_isSome _ (by omega)
  obtain ⟨heap3, h3⟩ := h3
  have len3 := store_opt_length h3
  have h4 : ∃ heap4, store_opt heap3 e.next (fun x => { x with prev := e.prev }) = some heap4 := by
    cases hnext : e.next with
    | none => exact ⟨heap3, rfl⟩
    | some q =>
      have := hle.1 q hnext
      exact store_isSome _ (by omega)
  obtain ⟨heap4, h4⟩ := h4
  simp only [h3, h4]
  exact ⟨_, rfl⟩

theorem store_data {heap heap1 : List lru_cache_entry_t} {q : Nat}
    {f : lru_cache_entry_t → lru_cache_entry_t} (hs : store heap q f = some heap1)
    (hf : ∀ e, entry_data (f e) = entry_data e) (i : Nat) :
    (heap1[i]?).map entry_data = (heap[i]?).map entry_data := by
  rw [store_get hs]
  by_cases hi : i = q
  · subst hi
    simp only [if_true]
    cases heap[i]? with
    | none => rfl
    | some e => simp [hf]
  · simp [hi]

theorem store_opt_data {heap heap1 : List lru_cache_entry_t} {q : Option Nat}
    {f : lru_cache_entry_t → lru_cache_entry_t} (hs : store_opt heap q f = some heap1)
    (hf : ∀ e, entry_data (f e) = entry_data e) (i : Nat) :
    (heap1[i]?).map entry_data = (heap[i]?).map entry_data := by
  cases q with
  | none =>
    simp only [store_opt, Option.some.injEq] at hs
    subst hs; rfl
  | some q => exact store_data hs hf i

theorem unset_order_data {cache : lru_cache_t} {heap heap4 : List lru_cache_entry_t} {p : Nat}
    {first last : Option Nat} (h : unset_order cache heap p = some (heap4, first, last))
    (i : Nat) : (heap4[i]?).map entry_data = (heap[i]?).map entry_data := by
  unfold unset_order at h
  split at h
  · cases h
  · simp only at h
    split at h
    · cases h
    · rename_i heap3 h3
      split at h
      · cases h
      · rename_i heap4' h4
        simp only [Option.some.injEq, Prod.mk.injEq] at h
        obtain ⟨rfl, _, _⟩ := h
        rw [store_opt_data h4 (fun _ => rfl), store_opt_data h3 (fun _ => rfl)]

theorem wrlock_nonneg {flags : Nat} {env : Env} (h : 0 ≤ env.lock_ret) :
    ¬ LRU_CACHE_WRLOCK flags env < 0 := by
  unfold LRU_CACHE_WRLOCK
  split <;> omega

theorem unlock_nonneg {flags : Nat} {env : Env} (h : 0 ≤ env.unlock_ret) :
    ¬ LRU_CACHE_UNLOCK flags env < 0 := by
  unfold LRU_CACHE_UNLOCK
  split <;> omega

theorem unset_missing {s : State} (hinv : Inv s) (key : List Nat) (flags : Nat) (env : Env)
    (hlock : 0 ≤ env.lock_ret) (hmiss : bucket_lookup s key = some none) :
    ∃ r, lru_cache_unset s key flags env = some r ∧ r.ret = -1 ∧ r.err = some EINVAL ∧
      r.st = s := by
  have hfail : ∀ st, (unset_unlock flags env (-1) (some EINVAL) st).ret = -1 ∧
      (unset_unlock flags env (-1) (some EINVAL) st).err = some EINVAL := by
    intro st
    unfold unset_unlock
    simp only
    split <;> simp
  obtain ⟨chain, hc⟩ := bucket_some hinv key
  unfold bucket_lookup at hmiss
  simp only [hc] at hmiss
  unfold lru_cache_unset
  simp only [wrlock_nonneg hlock, if_false, hc]
  cases chain with
  | none => exact ⟨_, rfl, (hfail s).1, (hfail s).2, unset_unlock_st _ _ _ _ _⟩
  | some ch =>
    obtain ⟨e, he, hh, hmax⟩ := hinv.buckets _ ch hc
    have hp := get_lt he
    obtain ⟨n, hn⟩ : ∃ n, s.heap.length = n + 1 := ⟨s.heap.length - 1, by omega⟩
    have hkey : e.key ≠ key := by
      intro hk
      rw [hn] at hmiss
      simp [chain_find, he, hk] at hmiss
    have hloop : unset_loop s.heap key s.heap.length (some ch) = some none := by
      apply unset_loop_none hinv.links _ _ hp (by omega)
      intro i e1 hi he1 hk1
      have h1 : lru_cache_hash s.cache e1.key = lru_cache_hash s.cache key := by rw [hk1]
      have h2 := hmax i e1 he1 h1
      have h3 : i = ch := by omega
      subst h3
      rw [he] at he1
      cases he1
      exact hkey hk1
    simp only [hloop]
    exact ⟨_, rfl, (hfail s).1, (hfail s).2, unset_unlock_st _ _ _ _ _⟩

theorem get_core_fst_ne_zero {cache : lru_cache_t} {hd : Option (List Nat × Int × Nat)}
    {key : List Nat} {flags : Nat} {env : Env} (h : (get_core cache hd key flags env).1 ≠ 0) :
    ∃ mtime value, hd = some (key, mtime, value) := by
  unfold get_core at h
  split at h
  · simp at h
  · split at h
    · simp at h
    · split at h
      · simp at h
      · rename_i k mtime value
        split at h
        · rename_i hk
          exact ⟨mtime, value, by rw [hk.1]⟩
        · simp at h

theorem get_core_none (cache : lru_cache_t) (key : List Nat) (flags : Nat) (env : Env) :
    (get_core cache none key flags env).1 = 0 := by
  unfold get_core
  split
  · rfl
  · split <;> rfl

theorem get_core_other (cache : lru_cache_t) (k key : List Nat) (mtime : Int) (value : Nat)
    (flags : Nat) (env : Env) (hk : k ≠ key) :
    get_core cache (some (k, mtime, value)) key flags env = get_core cache none key flags env := by
  unfold get_core
  simp [hk]

theorem get_core_cache (c c1 : lru_cache_t) (hm : c1.mtime = c.mtime) (ht : c1.ttl = c.ttl)
    (hd : Option (List Nat × Int × Nat)) (key : List Nat) (flags : Nat) (env : Env) :
    get_core c1 hd key flags env = get_core c hd key flags env := by
  unfold get_core
  rw [hm, ht]

theorem unset_present {s : State} (hinv : Inv s) (key : List Nat) (flags gflags : Nat)
    (env genv : Env) (rg : Result Nat)
    (hget : lru_cache_get s key gflags genv = some rg) (hv : rg.ret ≠ 0)
    (hlock : 0 ≤ env.lock_ret) (hunlock : 0 ≤ env.unlock_ret) :
    ∃ r, lru_cache_unset s key flags env = some r ∧ r.ret = 0 ∧
      (∀ f2 e2, ∃ r2, lru_cache_get r.st key f2 e2 = some r2 ∧ r2.ret = 0) ∧
      (∀ k2 f2 e2, k2 ≠ key →
        (lru_cache_get r.st k2 f2 e2).map (fun x => (x.ret, x.err)) =
          (lru_cache_get s k2 f2 e2).map (fun x => (x.ret, x.err))) := by
  obtain ⟨chain, hc⟩ := bucket_some hinv key
  have hg := get_head hinv key gflags genv hc
  rw [hget] at hg
  simp only [Option.map_some', Option.some.injEq] at hg
  have hne : (get_core s.cache (chain.bind (fun p => (s.heap[p]?).map entry_data)) key
      gflags genv).1 ≠ 0 := by
    rw [← hg]; exact hv
  obtain ⟨mt, vl, hhd⟩ := get_core_fst_ne_zero hne
  cases chain with
  | none => simp at hhd
  | some p =>
    obtain ⟨e, he, hh, hmax⟩ := hinv.buckets _ p hc
    have hp := get_lt he
    have hkey : e.key = key := by
      simp only [Option.bind, he, Option.map_some', entry_data, Option.some.injEq,
        Prod.mk.injEq] at hhd
      exact hhd.1
    obtain ⟨n, hn⟩ : ∃ n, s.heap.length = n + 1 := ⟨s.heap.length - 1, by omega⟩
    have hloop : unset_loop s.heap key s.heap.length (some p) = some (some p) := by
      rw [hn]
      simp [unset_loop, he, hkey]
    have hchain : unset_chain s.heap p p e = some (s.heap, none) := by
      have hcc := hinv.nocc p e he
      unfold unset_chain
      simp [hcc.1, hcc.2, store_opt]
    obtain ⟨⟨heap4, first, last⟩, ho⟩ := unset_order_some s.cache hinv.links he
    have hrun : lru_cache_unset s key flags env = some (unset_unlock flags env 0 none
        { s with
          cache := { s.cache with
            values := s.cache.values.set (lru_cache_hash s.cache key) none,
            first := first, last := last }
          heap := heap4 }) := by
      unfold lru_cache_unset
      simp only [wrlock_nonneg hlock, if_false, hc, hloop, he, hchain, ho]
    refine ⟨_, hrun, ?_, ?_, ?_⟩
    · unfold unset_unlock
      simp [unlock_nonneg hunlock]
    · intro f2 e2
      have hinv1 := inv_unset hinv hrun
      rw [unset_unlock_st] at hinv1 ⊢
      obtain ⟨r2, hr2⟩ := get_total hinv1 key f2 e2
      refine ⟨r2, hr2, ?_⟩
      have hc1 : ({ s with
          cache := { s.cache with
            values := s.cache.values.set (lru_cache_hash s.cache key) none,
            first := first, last := last }
          heap := heap4 } : State).cache.values[lru_cache_hash ({ s with
          cache := { s.cache with
            values := s.cache.values.set (lru_cache_hash s.cache key) none,
            first := first, last := last }
          heap := heap4 } : State).cache key]? = some none := by
        show (s.cache.values.set (lru_cache_hash s.cache key) none)[lru_cache_hash s.cache key]?
          = some none
        rw [List.getElem?_set_self (hash_lt hinv key)]
      have := get_head hinv1 key f2 e2 hc1
      rw [hr2] at this
      simp only [Option.map_some', Option.some.injEq, Option.bind] at this
      have h0 := get_core_none ({ s with
          cache := { s.cache with
            values := s.cache.values.set (lru_cache_hash s.cache key) none,
            first := first, last := last }
          heap := heap4 } : State).cache key f2 e2
      rw [← this] at h0
      exact h0
    · intro k2 f2 e2 hk2
      have hinv1 := inv_unset hinv hrun
      rw [unset_unlock_st] at hinv1 ⊢
      obtain ⟨chain2, hc2⟩ := bucket_some hinv k2
      rw [get_head hinv k2 f2 e2 hc2]
      by_cases hb : lru_cache_hash s.cache key = lru_cache_hash s.cache k2
      · -- same bucket: its head was the entry of `key`
        rw [← hb, hc] at hc2
        cases hc2
        have hc1 : (s.cache.values.set (lru_cache_hash s.cache key) none)[lru_cache_hash
            s.cache k2]? = some none := by
          rw [← hb, List.getElem?_set_self (hash_lt hinv key)]
        rw [get_head hinv1 k2 f2 e2 hc1]
        simp only [Option.bind, he, Option.map_some', entry_data]
        rw [get_core_other _ _ _ _ _ _ _ (by rw [hkey]; exact fun h => hk2 h.symm)]
        apply congrArg some
        apply get_core_cache <;> rfl
      · have hc1 : (s.cache.values.set (lru_cache_hash s.cache key) none)[lru_cache_hash
            s.cache k2]? = some chain2 := by
          rw [List.getElem?_set_ne hb]; exact hc2
        rw [get_head hinv1 k2 f2 e2 hc1]
        have hdeq : (chain2.bind (fun p => (heap4[p]?).map entry_data)) =
            (chain2.bind (fun p => (s.heap[p]?).map entry_data)) := by
          cases chain2 with
          | none => rfl
          | some q => exact unset_order_data ho q
        show some (get_core _ (chain2.bind (fun p => (heap4[p]?).map entry_data)) k2 f2 e2) = _
        rw [hdeq]
        apply congrArg some
        apply get_core_cache <;> rfl

theorem store_key_time {heap heap1 : List lru_cache_entry_t} {q : Nat}
    {f : lru_cache_entry_t → lru_cache_entry_t} (hs : store heap q f = some heap1)
    (hf : ∀ e, key_time (f e) = key_time e) :
    heap1.map key_time = heap.map key_time := by
  apply List.ext_getElem?
  intro i
  rw [List.getElem?_map, List.getElem?_map, store_get hs]
  by_cases hi : i = q
  · subst hi
    simp only [if_true]
    cases heap[i]? with
    | none => rfl
    | some e => simp [hf]
  · simp [hi]

theorem store_opt_key_time {heap heap1 : List lru_cache_entry_t} {q : Option Nat}
    {f : lru_cache_entry_t → lru_cache_entry_t} (hs : store_opt heap q f = some heap1)
    (hf : ∀ e, key_time (f e) = key_time e) :
    heap1.map key_time = heap.map key_time := by
  cases q with
  | none =>
    simp only [store_opt, Option.some.injEq] at hs
    subst hs; rfl
  | some q => exact store_key_time hs hf

theorem unset_frame {s : State} {key : List Nat} {flags : Nat} {env : Env} {r : Result Int}
    (h : lru_cache_unset s key flags env = some r) :
    r.st.heap.map key_time = s.heap.map key_time ∧ r.st.cache.mtime = s.cache.mtime := by
  unfold lru_cache_unset at h
  simp only at h
  split at h
  · cases h; exact ⟨rfl, rfl⟩
  · split at h
    · cases h
    · cases h; rw [unset_unlock_st]; exact ⟨rfl, rfl⟩
    · split at h
      · cases h
      · cases h; rw [unset_unlock_st]; exact ⟨rfl, rfl⟩
      · split at h
        · cases h
        · rename_i e he
          split at h
          · cases h
          · rename_i heap2 chain hc
            split at h
            · cases h
            · rename_i heap4 first last ho
              cases h
              rw [unset_unlock_st]
              refine ⟨?_, rfl⟩
              simp only
              have e2 : heap2.map key_time = s.heap.map key_time := by
                unfold unset_chain at hc
                simp only at hc
                split at hc
                · cases hc
                · rename_i heap1 h1
                  split at hc
                  · cases hc
                  · rename_i heap2' h2
                    simp only [Option.some.injEq, Prod.mk.injEq] at hc
                    obtain ⟨rfl, _⟩ := hc
                    rw [store_opt_key_time h2 (fun _ => rfl), store_opt_key_time h1 (fun _ => rfl)]
              have e4 : heap4.map key_time = heap2.map key_time := by
                unfold unset_order at ho
                split at ho
                · cases ho
                · simp only at ho
                  split at ho
                  · cases ho
                  · rename_i heap3 h3
                    split at ho
                    · cases ho
                    · rename_i heap4' h4
                      simp only [Option.some.injEq, Prod.mk.injEq] at ho
                      obtain ⟨rfl, _, _⟩ := ho
                      rw [store_opt_key_time h4 (fun _ => rfl),
                        store_opt_key_time h3 (fun _ => rfl)]
              rw [e4, e2]

theorem set_replace_frame {s s1 : State} {p value flags : Nat}
    (h : set_replace s p value flags = some s1) :
    s1.heap.map key_time = s.heap.map key_time ∧ s1.cache.mtime = s.cache.mtime := by
  unfold set_replace at h
  split at h
  · cases h
  · split at h
    · cases h
    · split at h
      · simp only at h
        split at h
        · cases h
        · split at h
          · cases h
          · rename_i heap1 h1
            split at h
            · split at h
              · cases h
              · rename_i heap2 h2
                cases h
                exact ⟨by rw [store_key_time h2 (fun _ => rfl), store_key_time h1 (fun _ => rfl)],
                  rfl⟩
            · split at h
              · cases h
              · split at h
                · cases h
                · rename_i heap2 h2
                  split at h
                  · cases h
                  · rename_i heap3 h3
                    cases h
                    exact ⟨by rw [store_key_time h3 (fun _ => rfl),
                      store_key_time h2 (fun _ => rfl), store_key_time h1 (fun _ => rfl)], rfl⟩
      · split at h
        · cases h
        · rename_i heap1 h1
          cases h
          exact ⟨store_key_time h1 (fun _ => rfl), rfl⟩

theorem set_insert_frame {s s1 : State} {hash : Nat} {chain : Option Nat} {key : List Nat}
    {value : Nat} {now : Int} (h : set_insert s hash chain key value now = some s1) :
    s1.heap.map key_time = s.heap.map key_time ++ [(key, now)] ∧
      s1.cache.mtime = s.cache.mtime := by
  unfold set_insert at h
  simp only at h
  have h0 : (s.heap ++ [fresh_entry now key]).map key_time =
      s.heap.map key_time ++ [(key, now)] := by
    simp [key_time, fresh_entry]
  split at h
  · cases h
  · rename_i heap1 first last happ
    have e1 : heap1.map key_time = (s.heap ++ [fresh_entry now key]).map key_time := by
      unfold set_append at happ
      split at happ
      · split at happ
        · cases happ
        · rename_i h1 hs1
          split at happ
          · cases happ
          · rename_i h2 hs2
            simp only [Option.some.injEq, Prod.mk.injEq] at happ
            obtain ⟨rfl, _, _⟩ := happ
            rw [store_key_time hs2 (fun _ => rfl), store_key_time hs1 (fun _ => rfl)]
      · simp only [Option.some.injEq, Prod.mk.injEq] at happ
        obtain ⟨rfl, _, _⟩ := happ
        rfl
    split at h
    · cases h
    · rename_i heap2 hs2
      have e2 : heap2.map key_time = heap1.map key_time :=
        store_key_time hs2 (fun _ => rfl)
      split at h
      · split at h
        · cases h
        · rename_i heap3 hs3
          split at h
          · cases h
          · rename_i heap4 hs4
            cases h
            exact ⟨by rw [store_key_time hs4 (fun _ => rfl), store_key_time hs3 (fun _ => rfl),
              e2, e1, h0], rfl⟩
      · cases h
        exact ⟨by rw [e2, e1, h0], rfl⟩

theorem set_frame {s : State} {key : List Nat} {value flags : Nat} {env : Env}
    {r : Result Int} (h : lru_cache_set s key value flags env = some r) :
    (r.st.heap.map key_time = s.heap.map key_time ∨
      r.st.heap.map key_time = s.heap.map key_time ++ [(key, env.now)]) ∧
      r.st.cache.mtime = s.cache.mtime := by
  unfold lru_cache_set at h
  simp only at h
  split at h
  · cases h
  · split at h
    · cases h; exact ⟨Or.inl rfl, rfl⟩
    · split at h
      · cases h
      · split at h
        · cases h
        · split at h
          · cases h
          · split at h
            · cases h
            · split at h
              · split at h
                · cases h
                · rename_i s1 hr
                  cases h
                  rw [set_unlock_st]
                  exact ⟨Or.inl (set_replace_frame hr).1, (set_replace_frame hr).2⟩
              · split at h
                · cases h; rw [set_unlock_st]; exact ⟨Or.inl rfl, rfl⟩
                · split at h
                  · cases h; rw [set_unlock_st]; exact ⟨Or.inl rfl, rfl⟩
                  · split at h
                    · cases h
                    · rename_i s1 hi
                      cases h
                      rw [set_unlock_st]
                      exact ⟨Or.inr (set_insert_frame hi).1, (set_insert_frame hi).2⟩

theorem set_opt_frame (upd : lru_cache_t → lru_cache_t) (s : State) (flags : Nat) (env : Env) :
    (LRU_CACHE_SET_OPT upd s flags env).st.heap = s.heap ∧
      ((LRU_CACHE_SET_OPT upd s flags env).st.cache = s.cache ∨
        (LRU_CACHE_SET_OPT upd s flags env).st.cache = upd s.cache) := by
  unfold LRU_CACHE_SET_OPT
  simp only
  split
  · exact ⟨rfl, Or.inl rfl⟩
  · split <;> exact ⟨rfl, Or.inr rfl⟩

theorem reachable_run {s : State} (hr : Reachable s) :
    ∀ (ops : List Op) (s2 : State), run s ops = some s2 → Reachable s2 := by
  intro ops
  induction ops generalizing s with
  | nil =>
    intro s2 h
    simp only [run, Option.some.injEq] at h
    subst h; exact hr
  | cons op ops ih =>
    intro s2 h
    simp only [run] at h
    split at h
    · cases h
    · rename_i r hs
      exact ih (Reachable.step s op r hr hs) s2 h

theorem reachable_run_rets {s : State} (hr : Reachable s) :
    ∀ (ops : List Op) (rets : List Int) (s2 : State),
      run_rets s ops = some (rets, s2) → Reachable s2 := by
  intro ops
  induction ops generalizing s with
  | nil =>
    intro rets s2 h
    simp only [run_rets, Option.some.injEq, Prod.mk.injEq] at h
    obtain ⟨_, rfl⟩ := h; exact hr
  | cons op ops ih =>
    intro rets s2 h
    simp only [run_rets] at h
    split at h
    · cases h
    · rename_i r hs
      split at h
      · cases h
      · rename_i rets1 s3 h3
        simp only [Option.some.injEq, Prod.mk.injEq] at h
        obtain ⟨_, rfl⟩ := h
        exact ih (Reachable.step s op r hr hs) rets1 s3 h3

theorem reachable_session_state (max_values max_size : Nat) (cenv : CreateEnv) (ops : List Op)
    (h : (session max_values max_size cenv ops).isSome = true) :
    Reachable (session_state max_values max_size cenv ops) := by
  unfold session_state
  cases hs : session max_values max_size cenv ops with
  | none => rw [hs] at h; cases h
  | some x =>
    obtain ⟨rets, s2⟩ := x
    simp only
    unfold session at hs
    split at hs
    · cases hs
    · rename_i s0 hc
      exact reachable_run_rets (Reachable.create _ _ _ _ hc) ops rets s2 hs

theorem eq_some_getD {α : Type} (o : Option α) (d : α) (h : o.isSome = true) :
    o = some (o.getD d) := by
  cases o with
  | none => cases h
  | some x => rfl

theorem invalidated_step {key : List Nat} {t : Int} {s : State} {op : Op} {r : Result Int}
    (hq : Invalidated key t s) (hop : later_call key t op) (h : step s op = some r) :
    Invalidated key t r.st := by
  have hopt : ∀ (upd : lru_cache_t → lru_cache_t) (flags : Nat) (env : Env),
      t ≤ (upd s.cache).mtime → Invalidated key t (LRU_CACHE_SET_OPT upd s flags env).st := by
    intro upd flags env hm
    obtain ⟨h1, h2⟩ := set_opt_frame upd s flags env
    refine ⟨by rw [h1]; exact hq.1, ?_⟩
    rcases h2 with h2 | h2
    · rw [h2]; exact hq.2
    · rw [h2]; exact hm
  cases op with
  | set k value flags env =>
    obtain ⟨h1, h2⟩ := set_frame h
    refine ⟨?_, by rw [h2]; exact hq.2⟩
    rcases h1 with h1 | h1
    · rw [h1]; exact hq.1
    · rw [h1]
      intro x hx hk
      rcases List.mem_append.1 hx with hx | hx
      · exact hq.1 x hx hk
      · simp only [List.mem_singleton] at hx
        subst hx
        exact absurd hk hop
  | unset k flags env =>
    obtain ⟨h1, h2⟩ := unset_frame h
    exact ⟨by rw [h1]; exact hq.1, by rw [h2]; exact hq.2⟩
  | empty flags env =>
    simp only [step, Option.some.injEq] at h
    subst h
    exact hopt _ flags env hop
  | set_ttl ttl flags env =>
    simp only [step, Option.some.injEq] at h
    subst h
    exact hopt _ flags env hq.2
  | set_size_func f flags env =>
    simp only [step, Option.some.injEq] at h
    subst h
    exact hopt _ flags env hq.2
  | set_compare_func f flags env =>
    simp only [step, Option.some.injEq] at h
    subst h
    exact hopt _ flags env hq.2
  | set_destroy_func f flags env =>
    simp only [step, Option.some.injEq] at h
    subst h
    exact hopt _ flags env hq.2

theorem invalidated_run {key : List Nat} {t : Int} :
    ∀ (ops : List Op) (s s2 : State), Invalidated key t s →
      (∀ op ∈ ops, later_call key t op) → run s ops = some s2 → Invalidated key t s2 := by
  intro ops
  induction ops with
  | nil =>
    intro s s2 hq _ h
    simp only [run, Option.some.injEq] at h
    subst h; exact hq
  | cons op ops ih =>
    intro s s2 hq hops h
    simp only [run] at h
    split at h
    · cases h
    · rename_i r hs
      exact ih r.st s2 (invalidated_step hq (hops op (List.mem_cons_self _ _)) hs)
        (fun o ho => hops o (List.mem_cons_of_mem _ ho)) h

theorem get_core_invisible {cache : lru_cache_t} {hd : Option (List Nat × Int × Nat)}
    {key : List Nat} {flags : Nat} {env : Env}
    (h : ∀ mt v, hd = some (key, mt, v) → mt < cache.mtime) :
    (get_core cache hd key flags env).1 = 0 := by
  unfold get_core
  split
  · rfl
  · split
    · rfl
    · split
      · rfl
      · rename_i k mt v
        split
        · rename_i hk
          have := h mt v (by rw [hk.1])
          exact absurd (Or.inl this) hk.2
        · rfl

theorem get_invalidated {key : List Nat} {t : Int} {s : State} (hinv : Inv s)
    (hq : Invalidated key t s) (flags : Nat) (env : Env) :
    ∃ r, lru_cache_get s key flags env = some r ∧ r.ret = 0 := by
  obtain ⟨r, hr⟩ := get_total hinv key flags env
  refine ⟨r, hr, ?_⟩
  obtain ⟨chain, hc⟩ := bucket_some hinv key
  have hg := get_head hinv key flags env hc
  rw [hr] at hg
  simp only [Option.map_some', Option.some.injEq] at hg
  have : (get_core s.cache (chain.bind (fun p => (s.heap[p]?).map entry_data)) key
      flags env).1 = 0 := by
    apply get_core_invisible
    intro mt v hhd
    cases chain with
    | none => simp at hhd
    | some p =>
      simp only [Option.bind] at hhd
      cases he : s.heap[p]? with
      | none => rw [he] at hhd; simp at hhd
      | some e =>
        rw [he] at hhd
        simp only [Option.map_some', entry_data, Option.some.injEq, Prod.mk.injEq] at hhd
        have hmem : (e.key, e.mtime) ∈ s.heap.map key_time := by
          apply List.mem_map.2
          exact ⟨e, List.getElem?_mem he, rfl⟩
        have := hq.1 _ hmem hhd.1
        simp only at this
        have h2 := hq.2
        rw [← hhd.2.1]
        omega
  rw [← hg] at this
  exact this

theorem empty_ok_mtime (s : State) (flags : Nat) (env : Env)
    (hok : (lru_cache_empty s flags env).ret = 0) :
    (lru_cache_empty s flags env).st.heap = s.heap ∧
      (lru_cache_empty s flags env).st.cache.mtime = env.now := by
  unfold lru_cache_empty LRU_CACHE_SET_OPT at hok ⊢
  simp only at hok ⊢
  split at hok
  · simp at hok
  · rename_i h1
    split at hok
    · simp at hok
    · rename_i h2
      simp only [h1, h2, if_false]
      exact ⟨trivial, trivial⟩

theorem get_loop_eq (c : lru_cache_t) (heap : List lru_cache_entry_t) (key : List Nat)
    (now : Int) : ∀ (fuel : Nat) (chain : Option Nat),
    get_loop c heap key now fuel chain =
      match chain_find heap key fuel chain with
      | none => none
      | some none => some none
      | some (some p) =>
        match heap[p]? with
        | none => none
        | some e =>
          if e.mtime < c.mtime ∨ e.mtime + c.ttl < now then some none else some (some p) := by
  intro fuel
  induction fuel with
  | zero =>
    intro chain
    cases chain <;> simp [get_loop, chain_find]
  | succ n ih =>
    intro chain
    cases chain with
    | none => simp [get_loop, chain_find]
    | some p =>
      simp only [get_loop, chain_find]
      cases hp : heap[p]? with
      | none => simp
      | some e =>
        by_cases hk : e.key = key
        · simp [hk, hp]
        · simp [hk, ih]

theorem get_of_lookup_gen (s : State) (key : List Nat) (flags : Nat) (env : Env) (p : Nat)
    (e : lru_cache_entry_t)
    (hfind : bucket_lookup s key = some (some p)) (he : s.heap[p]? = some e) :
    lru_cache_get s key flags env =
      if LRU_CACHE_RDLOCK flags env ≠ 0 then some ⟨0, some (LRU_CACHE_RDLOCK flags env), s⟩
      else if LRU_CACHE_UNLOCK flags env ≠ 0 then
        some ⟨0, some (LRU_CACHE_UNLOCK flags env), s⟩
      else
        some ⟨if s.cache.mtime ≤ e.mtime ∧ env.now ≤ e.mtime + s.cache.ttl then e.value else 0,
              none, s⟩ := by
  unfold bucket_lookup at hfind
  unfold lru_cache_get
  simp only
  split
  · rfl
  · cases hv : s.cache.values[lru_cache_hash s.cache key]? with
    | none => simp [hv] at hfind
    | some chain =>
      simp only [hv] at hfind
      simp only [get_loop_eq, hfind, he]
      by_cases hvis : e.mtime < s.cache.mtime ∨ e.mtime + s.cache.ttl < env.now
      · have : ¬ (s.cache.mtime ≤ e.mtime ∧ env.now ≤ e.mtime + s.cache.ttl) := by
          intro h; rcases hvis with h1 | h1 <;> omega
        simp only [hvis, this, if_true, if_false]
      · have : (s.cache.mtime ≤ e.mtime ∧ env.now ≤ e.mtime + s.cache.ttl) := by
          constructor <;> omega
        simp only [hvis, this, if_true, if_false, he, and_self]

/-- C5 (amended).  When the bucket walk finds the entry `e` for `key` and the
lock calls succeed, `lru_cache_get` returns `e.value` if `e.mtime >= cache.mtime`
and `e.mtime + cache.ttl >= now`, and `NULL` otherwise, whatever `ttl` is; so,
for a stored value that is not `NULL`, it returns the value exactly when both
inequalities hold.  A `ttl` of 0 is not special. -/
theorem get_visibility_rule (s : State) (key : List Nat) (flags : Nat) (env : Env) (p : Nat)
    (e : lru_cache_entry_t)
    (hlock : LRU_CACHE_RDLOCK flags env = 0) (hunlock : LRU_CACHE_UNLOCK flags env = 0)
    (hfind : bucket_lookup s key = some (some p)) (he : s.heap[p]? = some e) :
    ∃ r, lru_cache_get s key flags env = some r ∧ r.err = none ∧ r.st = s ∧
      r.ret = (if s.cache.mtime ≤ e.mtime ∧ env.now ≤ e.mtime + s.cache.ttl then e.value
        else 0) ∧
      (e.value ≠ 0 →
        (r.ret = e.value ↔ s.cache.mtime ≤ e.mtime ∧ env.now ≤ e.mtime + s.cache.ttl)) := by
  rw [get_of_lookup_gen s key flags env p e hfind he]
  simp only [hlock, hunlock, ne_eq, not_true_eq_false, if_false]
  refine ⟨_, rfl, rfl, rfl, rfl, ?_⟩
  intro hv
  show ((if s.cache.mtime ≤ e.mtime ∧ env.now ≤ e.mtime + s.cache.ttl then e.value else 0)
    = e.value ↔ _)
  by_cases hvis : s.cache.mtime ≤ e.mtime ∧ env.now ≤ e.mtime + s.cache.ttl
  · simp [hvis]
  · simp only [hvis, if_false, iff_false]
    exact fun h => hv h.symm

/-- C8 (amended).  In a reachable memory where every entry of `key` was created
at a clock reading strictly before the one `lru_cache_empty` reads, after a
successful `lru_cache_empty` and any further calls that all return, none of
them a `lru_cache_set` of `key` and no later `lru_cache_empty` reading an
earlier clock, every `lru_cache_get` of `key` returns `NULL`. -/
theorem empty_invalidates_older (s : State) (key : List Nat) (flags : Nat) (env : Env)
    (ops : List Op) (s2 : State) (hr : Reachable s)
    (hold : ∀ e ∈ s.heap, e.key = key → e.mtime < env.now)
    (hok : (lru_cache_empty s flags env).ret = 0)
    (hops : ∀ op ∈ ops, later_call key env.now op)
    (hrun : run (lru_cache_empty s flags env).st ops = some s2) :
    ∀ (gflags : Nat) (genv : Env),
      ∃ r, lru_cache_get s2 key gflags genv = some r ∧ r.ret = 0 := by
  have hr1 : Reachable (lru_cache_empty s flags env).st :=
    Reachable.step s (.empty flags env) _ hr rfl
  have hr2 := reachable_run hr1 ops s2 hrun
  obtain ⟨hh, hm⟩ := empty_ok_mtime s flags env hok
  have hq1 : Invalidated key env.now (lru_cache_empty s flags env).st := by
    refine ⟨?_, by rw [hm]⟩
    rw [hh]
    intro x hx hk
    obtain ⟨e, hmem, rfl⟩ := List.mem_map.1 hx
    exact hold e hmem hk
  have hq2 := invalidated_run ops _ s2 hq1 hops hrun
  intro gflags genv
  exact get_invalidated (inv_reachable hr2) hq2 gflags genv

/-- C9.  In a reachable memory, for a key whose bucket walk finds no entry and
a lock call that reports no error, `lru_cache_unset` returns -1, stores
`EINVAL` through `err` and leaves the whole memory as it was. -/
theorem unset_missing_key (s : State) (key : List Nat) (flags : Nat) (env : Env)
    (hr : Reachable s) (hlock : 0 ≤ env.lock_ret) (hmiss : bucket_lookup s key = some none) :
    ∃ r, lru_cache_unset s key flags env = some r ∧ r.ret = -1 ∧ r.err = some EINVAL ∧
      r.st = s :=
  unset_missing (inv_reachable hr) key flags env hlock hmiss

/-- C10.  In a reachable memory, for a key for which `lru_cache_get` returns a
value, `lru_cache_unset` (the lock calls reporting no error) returns 0;
afterwards every `lru_cache_get` of that key returns `NULL`, and
`lru_cache_get` of any other key returns what it returned before. -/
theorem unset_removes_exactly_its_key (s : State) (key : List Nat) (flags gflags : Nat)
    (env genv : Env) (v : Nat) (hr : Reachable s)
    (hget : (lru_cache_get s key gflags genv).map (fun r => r.ret) = some v) (hv : v ≠ 0)
    (hlock : 0 ≤ env.lock_ret) (hunlock : 0 ≤ env.unlock_ret) :
    ∃ r, lru_cache_unset s key flags env = some r ∧ r.ret = 0 ∧
      (∀ f2 e2, ∃ r2, lru_cache_get r.st key f2 e2 = some r2 ∧ r2.ret = 0) ∧
      (∀ k2 f2 e2, k2 ≠ key →
        (lru_cache_get r.st k2 f2 e2).map (fun x => (x.ret, x.err)) =
          (lru_cache_get s k2 f2 e2).map (fun x => (x.ret, x.err))) := by
  cases hg : lru_cache_get s key gflags genv with
  | none => rw [hg] at hget; cases hget
  | some rg =>
    rw [hg] at hget
    simp only [Option.map_some', Option.some.injEq] at hget
    exact unset_present (inv_reachable hr) key flags gflags env genv rg hg
      (by rw [hget]; exact hv) hlock hunlock

theorem unset_cache_frame {s : State} {key : List Nat} {flags : Nat} {env : Env}
    {r : Result Int} (h : lru_cache_unset s key flags env = some r) :
    r.st.cache = { s.cache with
      values := r.st.cache.values, first := r.st.cache.first, last := r.st.cache.last } ∧
    r.st.released = s.released := by
  unfold lru_cache_unset at h
  simp only at h
  split at h
  · cases h; exact ⟨rfl, rfl⟩
  · split at h
    · cases h
    · cases h; rw [unset_unlock_st]; exact ⟨rfl, rfl⟩
    · split at h
      · cases h
      · cases h; rw [unset_unlock_st]; exact ⟨rfl, rfl⟩
      · split at h
        · cases h
        · split at h
          · cases h
          · split at h
            · cases h
            · cases h
              rw [unset_unlock_st]
              exact ⟨rfl, rfl⟩

theorem set_replace_cache_frame {s s1 : State} {p value flags : Nat}
    (h : set_replace s p value flags = some s1) :
    s1.cache = { s.cache with
      values := s.cache.values, first := s1.cache.first, last := s.cache.last } := by
  unfold set_replace at h
  split at h
  · cases h
  · split at h
    · cases h
    · split at h
      · simp only at h
        split at h
        · cases h
        · split at h
          · cases h
          · split at h
            · split at h
              · cases h
              · cases h; rfl
            · split at h
              · cases h
              · split at h
                · cases h
                · split at h
                  · cases h
                  · cases h; rfl
      · split at h
        · cases h
        · cases h; rfl

theorem set_insert_cache_frame {s s1 : State} {hash : Nat} {chain : Option Nat}
    {key : List Nat} {value : Nat} {now : Int}
    (h : set_insert s hash chain key value now = some s1) :
    s1.cache = { s.cache with
      values := s1.cache.values, first := s1.cache.first, last := s1.cache.last } ∧
    s1.released = s.released := by
  unfold set_insert at h
  simp only at h
  split at h
  · cases h
  · split at h
    · cases h
    · split at h
      · split at h
        · cases h
        · split at h
          · cases h
          · cases h; exact ⟨rfl, rfl⟩
      · cases h; exact ⟨rfl, rfl⟩

theorem set_cache_frame {s : State} {key : List Nat} {value flags : Nat} {env : Env}
    {r : Result Int} (h : lru_cache_set s key value flags env = some r) :
    r.st.cache = { s.cache with
      values := r.st.cache.values, first := r.st.cache.first, last := r.st.cache.last } := by
  unfold lru_cache_set at h
  simp only at h
  split at h
  · cases h
  · split at h
    · cases h; rfl
    · split at h
      · cases h
      · split at h
        · cases h
        · split at h
          · cases h
          · split at h
            · cases h
            · split at h
              · split at h
                · cases h
                · rename_i s1 hr
                  cases h
                  rw [set_unlock_st]
                  have := set_replace_cache_frame hr
                  rw [this]
              · split at h
                · cases h; rw [set_unlock_st]
                · split at h
                  · cases h; rw [set_unlock_st]
                  · split at h
                    · cases h
                    · rename_i s1 hi
                      cases h
                      rw [set_unlock_st]
                      exact (set_insert_cache_frame hi).1

/-- The two counters of a cache are never written: they are 0 in every reachable memory. -/
theorem reachable_counters {s : State} (h : Reachable s) :
    s.cache.value_cnt = 0 ∧ s.cache.size_cnt = 0 := by
  induction h with
  | create mv ms env s hc =>
    unfold lru_cache_create at hc
    split at hc
    · cases hc
    · simp only at hc
      split at hc
      · cases hc
      · split at hc
        · cases hc
        · split at hc
          · cases hc
          · split at hc
            · cases hc
            · simp only [Option.some.injEq] at hc
              subst hc
              exact ⟨rfl, rfl⟩
  | step s op r _ hs ih =>
    have hopt : ∀ (upd : lru_cache_t → lru_cache_t) (flags : Nat) (env : Env),
        (upd s.cache).value_cnt = s.cache.value_cnt →
        (upd s.cache).size_cnt = s.cache.size_cnt →
        (LRU_CACHE_SET_OPT upd s flags env).st.cache.value_cnt = 0 ∧
          (LRU_CACHE_SET_OPT upd s flags env).st.cache.size_cnt = 0 := by
      intro upd flags env h1 h2
      rcases (set_opt_frame upd s flags env).2 with h | h
      · rw [h]; exact ih
      · rw [h, h1, h2]; exact ih
    cases op with
    | set key value flags env =>
      have := set_cache_frame hs
      rw [this]
      exact ih
    | unset key flags env =>
      have := (unset_cache_frame hs).1
      rw [this]
      exact ih
    | empty flags env =>
      simp only [step, Option.some.injEq] at hs
      subst hs
      exact hopt _ flags env rfl rfl
    | set_ttl ttl flags env =>
      simp only [step, Option.some.injEq] at hs
      subst hs
      exact hopt _ flags env rfl rfl
    | set_size_func f flags env =>
      simp only [step, Option.some.injEq] at hs
      subst hs
      exact hopt _ flags env rfl rfl
    | set_compare_func f flags env =>
      simp only [step, Option.some.injEq] at hs
      subst hs
      exact hopt _ flags env rfl rfl
    | set_destroy_func f flags env =>
      simp only [step, Option.some.injEq] at hs
      subst hs
      exact hopt _ flags env rfl rfl

set_option maxRecDepth 1000000

/-- C1 (failing input).  With 128 buckets and the seed 1700000000 the keys `"f"`
and `"j"` fall into the same bucket.  After two successful `lru_cache_set`
calls, `"f"` to 1 and then `"j"` to 2, at one clock reading,
`lru_cache_get` of `"f"` returns `NULL`, not 1. -/
theorem set_collision_loses_earlier_key :
    lru_cache_hash (session_state 128 0 (cenv_ok t0) []).cache key_f =
      lru_cache_hash (session_state 128 0 (cenv_ok t0) []).cache key_j ∧
    (session 128 0 (cenv_ok t0) [set_at key_f 1 t0, set_at key_j 2 t0]).map Prod.fst
      = some [0, 0] ∧
    session_get 128 0 (cenv_ok t0) [set_at key_f 1 t0, set_at key_j 2 t0] key_f
      LRU_CACHE_FLAG_NONE (env_ok t0) = some 0 ∧
    session_get 128 0 (cenv_ok t0) [set_at key_f 1 t0, set_at key_j 2 t0] key_j
      LRU_CACHE_FLAG_NONE (env_ok t0) = some 2 := by
  decide

/-- C2 (failing input).  A cache of capacity 128 after 129 successful
`lru_cache_set` calls on the pairwise distinct keys `k000`, ..., `k128` at one
clock reading: `value_cnt` is still 0, `lru_cache_get` still returns the value
of the first key `k000`, and it returns `NULL` for the later key `k002`, whose
bucket was taken over by another key. -/
theorem no_eviction_by_count :
    (session 128 0 (cenv_ok t0) (test_sets 129 t0)).map Prod.fst
      = some (List.replicate 129 0) ∧
    (session_state 128 0 (cenv_ok t0) (test_sets 129 t0)).cache.value_cnt = 0 ∧
    session_get 128 0 (cenv_ok t0) (test_sets 129 t0) (test_key 0)
      LRU_CACHE_FLAG_NONE (env_ok t0) = some 1 ∧
    session_get 128 0 (cenv_ok t0) (test_sets 129 t0) (test_key 2)
      LRU_CACHE_FLAG_NONE (env_ok t0) = some 0 := by
  decide

/-- C3 (failing input).  After `"a"` and `"b"` were set, the order list is
`[a, b]`.  A successful `lru_cache_set` of `"a"` to the new value 3 stores 3 in
the entry of `"a"` but leaves the order list as `[b]` with `cache->last` still
the entry of `"b"`: the entry of `"a"` is unlinked and not appended. -/
theorem replace_unlinks_without_append :
    lru_order (session_state 128 0 (cenv_ok t0) [set_at key_a 1 t0, set_at key_b 2 t0])
      = [0, 1] ∧
    bucket_lookup (session_state 128 0 (cenv_ok t0) [set_at key_a 1 t0, set_at key_b 2 t0])
      key_a = some (some 0) ∧
    (session 128 0 (cenv_ok t0)
      [set_at key_a 1 t0, set_at key_b 2 t0, set_at key_a 3 t0]).map Prod.fst
        = some [0, 0, 0] ∧
    lru_order (session_state 128 0 (cenv_ok t0)
      [set_at key_a 1 t0, set_at key_b 2 t0, set_at key_a 3 t0]) = [1] ∧
    (session_state 128 0 (cenv_ok t0)
      [set_at key_a 1 t0, set_at key_b 2 t0, set_at key_a 3 t0]).cache.last = some 1 ∧
    ((session_state 128 0 (cenv_ok t0)
      [set_at key_a 1 t0, set_at key_b 2 t0, set_at key_a 3 t0]).heap[0]?).map
        (fun e => (e.key, e.value)) = some (key_a, 3) := by
  decide

/-- C4 (failing input).  A cache with `max_size = 1048576` and a sizing hook
that gives every value the size 600000: after two successful `lru_cache_set`
calls on `"a"` and `"b"` both entries are live, `size_cnt` is still 0, and the
sizes of the live values add up to 1200000, more than `max_size`. -/
theorem size_bound_exceeded :
    (session 128 1048576 (cenv_ok t0)
      [.set_size_func (some size_600000) LRU_CACHE_FLAG_NONE (env_ok t0),
       set_at key_a 1 t0, set_at key_b 2 t0]).map Prod.fst = some [0, 0, 0] ∧
    (session_state 128 1048576 (cenv_ok t0)
      [.set_size_func (some size_600000) LRU_CACHE_FLAG_NONE (env_ok t0),
       set_at key_a 1 t0, set_at key_b 2 t0]).cache.max_size = 1048576 ∧
    (session_state 128 1048576 (cenv_ok t0)
      [.set_size_func (some size_600000) LRU_CACHE_FLAG_NONE (env_ok t0),
       set_at key_a 1 t0, set_at key_b 2 t0]).cache.size_cnt = 0 ∧
    live_entries (session_state 128 1048576 (cenv_ok t0)
      [.set_size_func (some size_600000) LRU_CACHE_FLAG_NONE (env_ok t0),
       set_at key_a 1 t0, set_at key_b 2 t0]) = [0, 1] ∧
    live_size (session_state 128 1048576 (cenv_ok t0)
      [.set_size_func (some size_600000) LRU_CACHE_FLAG_NONE (env_ok t0),
       set_at key_a 1 t0, set_at key_b 2 t0]) size_600000 = 1200000 := by
  decide

/-- C5 (counterexample).  In `demo_state` the entry of `"a"` is found by the
bucket walk, `ttl` is 0 and the entry was created at the epoch; one second
later `lru_cache_get` returns `NULL`, not the value 1. -/
theorem ttl_zero_expires_next_second :
    bucket_lookup demo_state key_a = some (some 0) ∧
    demo_state.heap[0]? = some demo_entry ∧
    demo_state.cache.ttl = 0 ∧ demo_state.cache.mtime ≤ demo_entry.mtime ∧
    (lru_cache_get demo_state key_a LRU_CACHE_FLAG_NONE (env_ok (t0 + 1))).map
      (fun r => (r.ret, r.err)) = some (0, none) := by
  decide

/-- C5 (amended), at `demo_state` within the second of the `lru_cache_set`. -/
theorem get_visibility_rule_witness :
    LRU_CACHE_RDLOCK LRU_CACHE_FLAG_NONE (env_ok t0) = 0 ∧
    LRU_CACHE_UNLOCK LRU_CACHE_FLAG_NONE (env_ok t0) = 0 ∧
    bucket_lookup demo_state key_a = some (some 0) ∧
    demo_state.heap[0]? = some demo_entry ∧
    ∃ r, lru_cache_get demo_state key_a LRU_CACHE_FLAG_NONE (env_ok t0) = some r ∧
      r.err = none ∧ r.st = demo_state ∧
      r.ret = (if demo_state.cache.mtime ≤ demo_entry.mtime ∧
        (env_ok t0).now ≤ demo_entry.mtime + demo_state.cache.ttl then demo_entry.value
        else 0) ∧
      (demo_entry.value ≠ 0 →
        (r.ret = demo_entry.value ↔ demo_state.cache.mtime ≤ demo_entry.mtime ∧
          (env_ok t0).now ≤ demo_entry.mtime + demo_state.cache.ttl)) :=
  ⟨by decide, by decide, by decide, by decide,
    get_visibility_rule demo_state key_a LRU_CACHE_FLAG_NONE (env_ok t0) 0 demo_entry
      (by decide) (by decide) (by decide) (by decide)⟩

/-- C7 (failing input).  `"a"` is set to 1 at `t0`, `lru_cache_empty` runs at
`t0 + 2`, so the entry is invisible; a successful `lru_cache_set` of `"a"` to 2
at `t0 + 2` stores the value but leaves the creation time at `t0`, and
`lru_cache_get` at `t0 + 2` returns `NULL`, not 2. -/
theorem reset_does_not_revive :
    session_get 128 0 (cenv_ok t0)
      [set_at key_a 1 t0, .empty LRU_CACHE_FLAG_NONE (env_ok (t0 + 2))] key_a
      LRU_CACHE_FLAG_NONE (env_ok (t0 + 2)) = some 0 ∧
    (session 128 0 (cenv_ok t0)
      [set_at key_a 1 t0, .empty LRU_CACHE_FLAG_NONE (env_ok (t0 + 2)),
       set_at key_a 2 (t0 + 2)]).map Prod.fst = some [0, 0, 0] ∧
    ((session_state 128 0 (cenv_ok t0)
      [set_at key_a 1 t0, .empty LRU_CACHE_FLAG_NONE (env_ok (t0 + 2)),
       set_at key_a 2 (t0 + 2)]).heap.map (fun e => (e.key, e.value, e.mtime)))
        = [(key_a, 2, t0)] ∧
    session_get 128 0 (cenv_ok t0)
      [set_at key_a 1 t0, .empty LRU_CACHE_FLAG_NONE (env_ok (t0 + 2)),
       set_at key_a 2 (t0 + 2)] key_a LRU_CACHE_FLAG_NONE (env_ok (t0 + 2)) = some 0 := by
  decide

/-- C8 (counterexample).  `"a"` is set to 1 at `t0` and `lru_cache_empty`
succeeds at the same clock reading `t0`; `lru_cache_get` of `"a"` still
returns 1. -/
theorem empty_same_second_keeps_entry :
    (session 128 0 (cenv_ok t0)
      [set_at key_a 1 t0, .empty LRU_CACHE_FLAG_NONE (env_ok t0)]).map Prod.fst
        = some [0, 0] ∧
    session_get 128 0 (cenv_ok t0)
      [set_at key_a 1 t0, .empty LRU_CACHE_FLAG_NONE (env_ok t0)] key_a
      LRU_CACHE_FLAG_NONE (env_ok t0) = some 1 := by
  decide

/-- C8 (amended), at `demo_state` emptied at `t0 + 1` and followed by `demo_later`. -/
theorem empty_invalidates_older_witness :
    (∀ e ∈ demo_state.heap, e.key = key_a → e.mtime < (env_ok (t0 + 1)).now) ∧
    (lru_cache_empty demo_state LRU_CACHE_FLAG_NONE (env_ok (t0 + 1))).ret = 0 ∧
    run (lru_cache_empty demo_state LRU_CACHE_FLAG_NONE (env_ok (t0 + 1))).st demo_later
      = some demo_after ∧
    ∃ r, lru_cache_get demo_after key_a LRU_CACHE_FLAG_NONE (env_ok (t0 + 3)) = some r ∧
      r.ret = 0 :=
  ⟨by decide, by decide, eq_some_getD _ _ (by decide),
    empty_invalidates_older demo_state key_a LRU_CACHE_FLAG_NONE (env_ok (t0 + 1)) demo_later
      demo_after (reachable_session_state _ _ _ _ (by decide)) (by decide) (by decide)
      (by
        intro op hop
        simp only [demo_later, List.mem_cons, List.mem_singleton, List.not_mem_nil,
          or_false] at hop
        rcases hop with h | h | h
        · subst h; show key_b ≠ key_a; decide
        · subst h; exact trivial
        · subst h; show (t0 + 1 : Int) ≤ t0 + 3; decide)
      (eq_some_getD _ _ (by decide)) LRU_CACHE_FLAG_NONE (env_ok (t0 + 3))⟩

/-- C9, at `demo_state` for the key `"b"`, which was never set. -/
theorem unset_missing_key_witness :
    Reachable demo_state ∧ 0 ≤ (env_ok t0).lock_ret ∧
    bucket_lookup demo_state key_b = some none ∧
    ∃ r, lru_cache_unset demo_state key_b LRU_CACHE_FLAG_NONE (env_ok t0) = some r ∧
      r.ret = -1 ∧ r.err = some EINVAL ∧ r.st = demo_state :=
  ⟨reachable_session_state _ _ _ _ (by decide), by decide, by decide,
    unset_missing_key demo_state key_b LRU_CACHE_FLAG_NONE (env_ok t0)
      (reachable_session_state _ _ _ _ (by decide)) (by decide) (by decide)⟩

/-- C10, at `demo_state` for the key `"a"`, whose value is 1. -/
theorem unset_removes_exactly_its_key_witness :
    Reachable demo_state ∧
    (lru_cache_get demo_state key_a LRU_CACHE_FLAG_NONE (env_ok t0)).map (fun r => r.ret)
      = some 1 ∧
    ∃ r, lru_cache_unset demo_state key_a LRU_CACHE_FLAG_NONE (env_ok t0) = some r ∧
      r.ret = 0 ∧
      (∀ f2 e2, ∃ r2, lru_cache_get r.st key_a f2 e2 = some r2 ∧ r2.ret = 0) ∧
      (∀ k2 f2 e2, k2 ≠ key_a →
        (lru_cache_get r.st k2 f2 e2).map (fun x => (x.ret, x.err)) =
          (lru_cache_get demo_state k2 f2 e2).map (fun x => (x.ret, x.err))) :=
  ⟨reachable_session_state _ _ _ _ (by decide), by decide,
    unset_removes_exactly_its_key demo_state key_a LRU_CACHE_FLAG_NONE LRU_CACHE_FLAG_NONE
      (env_ok t0) (env_ok t0) 1 (reachable_session_state _ _ _ _ (by decide)) (by decide)
      (by decide) (by decide) (by decide)⟩

theorem rotl32_eq_ref (x r : Nat) (hx : x < 2 ^ 32) (hr : r ≤ 32) :
    rotl32 x r = ref_rotl x r := by
  unfold rotl32 ref_rotl U32
  rw [Nat.shiftLeft_eq, Nat.shiftRight_eq_div_pow]
  have h32 : (4294967296 : Nat) = 2 ^ (32 - r) * 2 ^ r := by
    rw [← Nat.pow_add, Nat.sub_add_cancel hr]
  have hpow : (2 : Nat) ^ 32 = 4294967296 := by norm_num
  rw [hpow]
  have hlow : x / 2 ^ (32 - r) < 2 ^ r := by
    apply Nat.div_lt_of_lt_mul
    rw [← h32, ← hpow]
    exact hx
  have hmod : x * 2 ^ r % 4294967296 = 2 ^ r * (x % 2 ^ (32 - r)) := by
    rw [h32, Nat.mul_mod_mul_right, Nat.mul_comm]
  rw [hmod]
  exact (Nat.mul_add_lt_is_or hlow _).symm

theorem mix_k1_eq_ref (k : Nat) : mix_k1 k = ref_scramble k := by
  unfold mix_k1 ref_scramble c1 c2 U32
  simp only
  have hx : k * 3432918353 % 4294967296 < 2 ^ 32 := by
    have : (2 : Nat) ^ 32 = 4294967296 := by norm_num
    rw [this]
    exact Nat.mod_lt _ (by norm_num)
  rw [rotl32_eq_ref _ 15 hx (by norm_num)]
  norm_num

theorem mix_k1_lt (k : Nat) : mix_k1 k < 2 ^ 32 := by
  unfold mix_k1 U32
  simp only
  have : (2 : Nat) ^ 32 = 4294967296 := by norm_num
  rw [this]
  exact Nat.mod_lt _ (by norm_num)

theorem body_step_eq_ref (h k : Nat) (hh : h < 2 ^ 32) : body_step h k = ref_round h k := by
  unfold body_step ref_round U32
  simp only
  have hx : h ^^^ mix_k1 k < 2 ^ 32 := Nat.xor_lt_two_pow hh (mix_k1_lt k)
  rw [rotl32_eq_ref _ 13 hx (by norm_num), mix_k1_eq_ref]
  norm_num

theorem body_step_lt (h k : Nat) : body_step h k < 2 ^ 32 := by
  unfold body_step U32
  simp only
  have : (2 : Nat) ^ 32 = 4294967296 := by norm_num
  rw [this]
  exact Nat.mod_lt _ (by norm_num)

theorem getblock_eq_ref (b0 b1 b2 b3 : Nat) (rest : List Nat) :
    getblock b0 b1 b2 b3 = ref_word (b0 :: b1 :: b2 :: b3 :: rest) 0 := by
  unfold getblock ref_word
  simp only [Nat.shiftLeft_eq]
  simp
  omega

theorem getD_add_four (b0 b1 b2 b3 : Nat) (rest : List Nat) (m : Nat) :
    (b0 :: b1 :: b2 :: b3 :: rest).getD (m + 4) 0 = rest.getD m 0 := by
  simp only [List.getD_eq_getElem?_getD, List.getElem?_cons_succ]

theorem ref_word_succ (b0 b1 b2 b3 : Nat) (rest : List Nat) (i : Nat) :
    ref_word (b0 :: b1 :: b2 :: b3 :: rest) (i + 1) = ref_word rest i := by
  unfold ref_word
  have e0 : 4 * (i + 1) = 4 * i + 4 := by ring
  have e1 : 4 * (i + 1) + 1 = (4 * i + 1) + 4 := by ring
  have e2 : 4 * (i + 1) + 2 = (4 * i + 2) + 4 := by ring
  have e3 : 4 * (i + 1) + 3 = (4 * i + 3) + 4 := by ring
  rw [e1, e2, e3, e0, getD_add_four, getD_add_four, getD_add_four, getD_add_four]

theorem murmur_body_cons (h b0 b1 b2 b3 : Nat) (rest : List Nat) :
    murmur_body h (b0 :: b1 :: b2 :: b3 :: rest) =
      murmur_body (body_step h (getblock b0 b1 b2 b3)) rest := by
  delta murmur_body
  rfl

theorem murmur_body_eq_ref :
    ∀ (n : Nat) (key : List Nat) (h : Nat), key.length = n → h < 2 ^ 32 →
      murmur_body h key =
        ((List.range (key.length / 4)).foldl (fun h i => ref_round h (ref_word key i)) h,
          key.drop (4 * (key.length / 4))) := by
  intro n
  induction n using Nat.strong_induction_on with
  | _ n ih =>
    intro key h hn hh
    match key, hn with
    | [], _ => rfl
    | [a], _ =>
      have e : murmur_body h [a] = (h, [a]) := rfl
      rw [e]
      simp
    | [a, b], _ =>
      have e : murmur_body h [a, b] = (h, [a, b]) := rfl
      rw [e]
      simp
    | [a, b, c], _ =>
      have e : murmur_body h [a, b, c] = (h, [a, b, c]) := rfl
      rw [e]
      simp
    | b0 :: b1 :: b2 :: b3 :: rest, hn =>
      have hlen : (b0 :: b1 :: b2 :: b3 :: rest).length = rest.length + 4 := by simp
      have hdiv : (rest.length + 4) / 4 = rest.length / 4 + 1 := by omega
      rw [murmur_body_cons, ih rest.length (by rw [← hn, hlen]; omega) rest _ rfl
        (body_step_lt _ _), hlen, hdiv, List.range_succ_eq_map, List.foldl_cons,
        List.foldl_map]
      have hfun : (fun (x : Nat) (y : Nat) => ref_round x
          (ref_word (b0 :: b1 :: b2 :: b3 :: rest) (Nat.succ y))) =
          (fun h i => ref_round h (ref_word rest i)) := by
        funext x y
        rw [ref_word_succ]
      rw [hfun, ← getblock_eq_ref b0 b1 b2 b3 rest, body_step_eq_ref _ _ hh]
      have hdrop : 4 * (rest.length / 4 + 1) = 4 * (rest.length / 4) + 4 := by ring
      rw [hdrop]
      rfl

theorem fmix_eq_ref (h : Nat) : fmix h = ref_fmix h := by
  unfold fmix ref_fmix U32
  simp only [Nat.shiftRight_eq_div_pow]
  norm_num

theorem murmur_tail_eq_ref (h : Nat) (t : List Nat) (ht : t.length < 4) :
    murmur_tail h t =
      if t.length = 0 then h
      else h ^^^ ref_scramble
        ((List.range t.length).foldl (fun k i => k ^^^ (t.getD i 0 * 2 ^ (8 * i))) 0) := by
  match t, ht with
  | [], _ => rfl
  | [t0], _ =>
    have e : murmur_tail h [t0] = h ^^^ mix_k1 t0 := rfl
    rw [e, mix_k1_eq_ref]
    simp [List.range_succ]
  | [t0, t1], _ =>
    have e : murmur_tail h [t0, t1] = h ^^^ mix_k1 ((t1 <<< 8) ^^^ t0) := rfl
    rw [e, mix_k1_eq_ref]
    simp [List.range_succ, Nat.shiftLeft_eq, Nat.xor_comm]
  | [t0, t1, t2], _ =>
    have e : murmur_tail h [t0, t1, t2] =
        h ^^^ mix_k1 (((t2 <<< 16) ^^^ (t1 <<< 8)) ^^^ t0) := rfl
    rw [e, mix_k1_eq_ref]
    simp only [List.length_cons, List.length_nil, List.range_succ, List.range_zero,
      List.nil_append, List.cons_append, List.foldl_cons, List.foldl_nil,
      Nat.shiftLeft_eq, List.getD_cons_zero, List.getD_cons_succ]
    have hx : ∀ a b c : Nat, (a ^^^ b) ^^^ c = (c ^^^ b) ^^^ a := by
      intro a b c
      rw [Nat.xor_comm (a ^^^ b), Nat.xor_comm a, Nat.xor_assoc]
    simp only [Nat.mul_zero, Nat.pow_zero, Nat.mul_one, Nat.zero_xor]
    rw [hx t0]
    simp
  | _ :: _ :: _ :: _ :: _, ht =>
    simp only [List.length_cons] at ht
    omega

theorem ref_tail_word_eq (key : List Nat) :
    ref_tail_word key =
      (List.range (key.drop (4 * (key.length / 4))).length).foldl
        (fun k i => k ^^^ ((key.drop (4 * (key.length / 4))).getD i 0 * 2 ^ (8 * i))) 0 := by
  unfold ref_tail_word
  have hlen : (key.drop (4 * (key.length / 4))).length = key.length % 4 := by
    rw [List.length_drop]
    omega
  rw [hlen]
  congr 1
  funext k i
  simp only [List.getD_eq_getElem?_getD, List.getElem?_drop]

theorem murmur_eq_ref (key : List Nat) (seed : Nat) (hseed : seed < 2 ^ 32) :
    MurMurhash3_x86_32 key seed = MurmurHash3_x86_32_ref key seed := by
  unfold MurMurhash3_x86_32 MurmurHash3_x86_32_ref ref_body
  simp only
  rw [murmur_body_eq_ref key.length key seed rfl hseed]
  simp only
  have hlen : (key.drop (4 * (key.length / 4))).length = key.length % 4 := by
    rw [List.length_drop]
    omega
  rw [murmur_tail_eq_ref _ _ (by rw [hlen]; omega), fmix_eq_ref, ← ref_tail_word_eq, hlen]
  have hu : U32 = 2 ^ 32 := by unfold U32; norm_num
  rw [hu]

/-- C11.  When both allocations and the lock initialisation succeed,
`lru_cache_create` returns `NULL` with `EINVAL` exactly when
`0 < max_values < 128` or `0 < max_size < 1048576`; otherwise it returns a
cache with no entry, `first = last = NULL`, both counters 0, every bucket
empty, 4096 buckets when `max_values` is 0 and `max_values` buckets otherwise,
and `max_size` as given. -/
theorem create_validation (max_values max_size : Nat) (env : CreateEnv)
    (hc : env.calloc_cache_ok = true) (hv : env.calloc_values_ok = true)
    (hl : env.rwlock_init_ret = 0) :
    (((lru_cache_create max_values max_size env).1 = none ∧
        (lru_cache_create max_values max_size env).2 = some EINVAL) ↔
      ((0 < max_values ∧ max_values < 128) ∨ (0 < max_size ∧ max_size < 1048576))) ∧
    (¬ ((0 < max_values ∧ max_values < 128) ∨ (0 < max_size ∧ max_size < 1048576)) →
      ∃ s, lru_cache_create max_values max_size env = (some s, none) ∧
        s.heap = [] ∧ s.released = [] ∧ s.cache.first = none ∧ s.cache.last = none ∧
        s.cache.value_cnt = 0 ∧ s.cache.size_cnt = 0 ∧
        s.cache.max_values = (if max_values = 0 then 4096 else max_values) ∧
        s.cache.values = List.replicate s.cache.max_values none ∧
        s.cache.max_size = max_size) := by
  unfold lru_cache_create LRU_CACHE_MIN_VALUES LRU_CACHE_MIN_SIZE
    LRU_CACHE_DEFAULT_MAX_VALUES LRU_CACHE_DEFAULT_MAX_SIZE
  by_cases h1 : max_values ≠ 0 ∧ max_values < 128
  · rw [if_pos h1]
    refine ⟨⟨fun _ => Or.inl ⟨by omega, h1.2⟩, fun _ => ⟨rfl, rfl⟩⟩, fun h => ?_⟩
    exact absurd (Or.inl ⟨by omega, h1.2⟩) h
  · rw [if_neg h1]
    simp only []
    by_cases h2 : max_size ≠ 0 ∧ max_size < 1024 * 1024
    · rw [if_pos h2]
      refine ⟨⟨fun _ => Or.inr ⟨by omega, by omega⟩, fun _ => ⟨rfl, rfl⟩⟩, fun h => ?_⟩
      exact absurd (Or.inr ⟨by omega, by omega⟩) h
    · rw [if_neg h2]
      simp only [hc, hv, hl, Bool.not_true, Bool.false_eq_true, if_false, ne_eq,
        not_true_eq_false]
      refine ⟨⟨fun h => ?_, fun h => ?_⟩, fun _ => ?_⟩
      · exact absurd h.1 (by simp)
      · exfalso
        rcases h with h | h
        · exact h1 ⟨by omega, h.2⟩
        · exact h2 ⟨by omega, by omega⟩
      · refine ⟨_, rfl, rfl, rfl, rfl, rfl, rfl, rfl, ?_, rfl, ?_⟩
        · by_cases hz : max_values = 0
          · simp [hz]
          · simp [hz]
        · by_cases hz : max_size = 0
          · simp [hz]
          · simp [hz]

theorem step_seed_max {s : State} {op : Op} {r : Result Int} (h : step s op = some r) :
    r.st.cache.seed = s.cache.seed ∧ r.st.cache.max_values = s.cache.max_values := by
  have hopt : ∀ (upd : lru_cache_t → lru_cache_t) (flags : Nat) (env : Env),
      (upd s.cache).seed = s.cache.seed → (upd s.cache).max_values = s.cache.max_values →
      (LRU_CACHE_SET_OPT upd s flags env).st.cache.seed = s.cache.seed ∧
        (LRU_CACHE_SET_OPT upd s flags env).st.cache.max_values = s.cache.max_values := by
    intro upd flags env h1 h2
    rcases (set_opt_frame upd s flags env).2 with h | h
    · rw [h]; exact ⟨rfl, rfl⟩
    · rw [h]; exact ⟨h1, h2⟩
  cases op with
  | set key value flags env =>
    have := set_cache_frame h
    rw [this]
    exact ⟨rfl, rfl⟩
  | unset key flags env =>
    have := (unset_cache_frame h).1
    rw [this]
    exact ⟨rfl, rfl⟩
  | empty flags env =>
    simp only [step, Option.some.injEq] at h
    subst h
    exact hopt _ flags env rfl rfl
  | set_ttl ttl flags env =>
    simp only [step, Option.some.injEq] at h
    subst h
    exact hopt _ flags env rfl rfl
  | set_size_func f flags env =>
    simp only [step, Option.some.injEq] at h
    subst h
    exact hopt _ flags env rfl rfl
  | set_compare_func f flags env =>
    simp only [step, Option.some.injEq] at h
    subst h
    exact hopt _ flags env rfl rfl
  | set_destroy_func f flags env =>
    simp only [step, Option.some.injEq] at h
    subst h
    exact hopt _ flags env rfl rfl

theorem run_seed_max :
    ∀ (ops : List Op) (s s2 : State), run s ops = some s2 →
      s2.cache.seed = s.cache.seed ∧ s2.cache.max_values = s.cache.max_values := by
  intro ops
  induction ops with
  | nil =>
    intro s s2 h
    simp only [run, Option.some.injEq] at h
    subst h
    exact ⟨rfl, rfl⟩
  | cons op ops ih =>
    intro s s2 h
    simp only [run] at h
    split at h
    · cases h
    · rename_i r hs
      have h1 := step_seed_max hs
      have h2 := ih r.st s2 h
      exact ⟨h2.1.trans h1.1, h2.2.trans h1.2⟩

/-- C16.  In every reachable memory (so for every cache `lru_cache_create`
returned) and for every key, `lru_cache_hash` is below `max_values`, the bucket
it names exists, the index is the digest of the key bytes under the cache seed
reduced modulo `max_values`, and it is the same after any further calls. -/
theorem hash_in_range (s : State) (key : List Nat) (hr : Reachable s) :
    lru_cache_hash s.cache key < s.cache.max_values ∧
    (∃ chain, s.cache.values[lru_cache_hash s.cache key]? = some chain) ∧
    lru_cache_hash s.cache key = MurMurhash3_x86_32 key s.cache.seed % s.cache.max_values ∧
    (∀ (ops : List Op) (s2 : State), run s ops = some s2 →
      lru_cache_hash s2.cache key = lru_cache_hash s.cache key) := by
  have hinv := inv_reachable hr
  refine ⟨Nat.mod_lt _ hinv.pos, bucket_some hinv key, rfl, ?_⟩
  intro ops s2 hrun
  obtain ⟨h1, h2⟩ := run_seed_max ops s s2 hrun
  unfold lru_cache_hash
  rw [h1, h2]

/-- C17.  A successful `lru_cache_empty` stores the clock reading in
`cache->mtime`, writes no error code and changes nothing else; afterwards
`lru_cache_get` returns `NULL` for every key whose entry, as found by the
bucket walk, was created strictly before that clock reading. -/
theorem empty_changes_only_epoch (s : State) (flags : Nat) (env : Env)
    (hok : (lru_cache_empty s flags env).ret = 0) :
    (lru_cache_empty s flags env).st = { s with cache := { s.cache with mtime := env.now } } ∧
    (lru_cache_empty s flags env).err = none ∧
    ∀ (key : List Nat) (p : Nat) (e : lru_cache_entry_t) (gflags : Nat) (genv : Env),
      bucket_lookup (lru_cache_empty s flags env).st key = some (some p) →
      (lru_cache_empty s flags env).st.heap[p]? = some e → e.mtime < env.now →
      ∃ r, lru_cache_get (lru_cache_empty s flags env).st key gflags genv = some r ∧
        r.ret = 0 := by
  have hst : (lru_cache_empty s flags env).st =
      { s with cache := { s.cache with mtime := env.now } } ∧
      (lru_cache_empty s flags env).err = none := by
    unfold lru_cache_empty LRU_CACHE_SET_OPT at hok ⊢
    simp only at hok ⊢
    split at hok
    · simp at hok
    · rename_i h1
      split at hok
      · simp at hok
      · rename_i h2
        simp only [h1, h2, if_false]
        exact ⟨trivial, trivial⟩
  refine ⟨hst.1, hst.2, ?_⟩
  intro key p e gflags genv hfind he hold
  rw [get_of_lookup_gen _ key gflags genv p e hfind he]
  have hm : (lru_cache_empty s flags env).st.cache.mtime = env.now := by rw [hst.1]
  have : ¬ ((lru_cache_empty s flags env).st.cache.mtime ≤ e.mtime ∧
      genv.now ≤ e.mtime + (lru_cache_empty s flags env).st.cache.ttl) := by
    rw [hm]
    intro h
    omega
  split
  · exact ⟨_, rfl, rfl⟩
  · split
    · exact ⟨_, rfl, rfl⟩
    · refine ⟨_, rfl, ?_⟩
      simp only [this, if_false]

/-- Lines 450-459 with a sizing hook installed: for an entry `p` holding the
old value `o`, `resize` is `size_func (v)` when `size_func (v) >= size_func (o)`
and 0 otherwise; without an entry it is
`sizeof (lru_cache_entry_t) + strlen (key) + size_func (v)` in `size_t`
arithmetic, which is that sum when it fits. -/
theorem resize_rule (cache : lru_cache_t) (heap : List lru_cache_entry_t) (key : List Nat)
    (value : Nat) (size_func : Nat → Nat) (hsf : cache.size_func = some size_func) :
    (∀ (p : Nat) (e : lru_cache_entry_t), heap[p]? = some e →
      set_resize cache heap (some p) key value =
        some (if size_func value < size_func e.value then 0 else size_func value)) ∧
    set_resize cache heap none key value =
      some ((sizeof_lru_cache_entry_t + key.length + size_func value) % SIZE_MAX1) ∧
    (sizeof_lru_cache_entry_t + key.length + size_func value < SIZE_MAX1 →
      set_resize cache heap none key value =
        some (sizeof_lru_cache_entry_t + key.length + size_func value)) := by
  have hnew : set_resize cache heap none key value =
      some ((sizeof_lru_cache_entry_t + key.length + size_func value) % SIZE_MAX1) := by
    unfold set_resize
    simp only [hsf]
    rw [Nat.mod_add_mod]
  refine ⟨?_, hnew, ?_⟩
  · intro p e he
    unfold set_resize
    simp only [hsf, he]
  · intro hfit
    rw [hnew, Nat.mod_eq_of_lt hfit]

theorem lock_fails_of_ne {flags : Nat} {env : Env}
    (hf : flags &&& LRU_CACHE_FLAG_DONT_LOCK = 0) (he : env.lock_ret ≠ 0) :
    LRU_CACHE_WRLOCK flags env = env.lock_ret ∧ LRU_CACHE_RDLOCK flags env = env.lock_ret ∧
      LRU_CACHE_WRLOCK flags env ≠ 0 ∧ LRU_CACHE_RDLOCK flags env ≠ 0 := by
  unfold LRU_CACHE_WRLOCK LRU_CACHE_RDLOCK
  simp [hf, he]

/-- Lock failure in the calls that test the lock result with `!= 0`:
`lru_cache_get`, `lru_cache_set`, `lru_cache_empty` and `lru_cache_set_ttl`, called
without `LRU_CACHE_FLAG_DONT_LOCK` while the lock call reports a code other than
0, return failure, store that code and leave the memory as it was. -/
theorem lock_failure_keeps_state (s : State) (key : List Nat) (value : Nat) (ttl : Int)
    (flags : Nat) (env : Env) (hf : flags &&& LRU_CACHE_FLAG_DONT_LOCK = 0)
    (he : env.lock_ret ≠ 0) (hv : value ≠ 0) :
    (∃ r, lru_cache_get s key flags env = some r ∧ r.ret = 0 ∧ r.err = some env.lock_ret ∧
      r.st = s) ∧
    (∃ r, lru_cache_set s key value flags env = some r ∧ r.ret = -1 ∧
      r.err = some env.lock_ret ∧ r.st = s) ∧
    ((lru_cache_empty s flags env).ret = -1 ∧
      (lru_cache_empty s flags env).err = some env.lock_ret ∧
      (lru_cache_empty s flags env).st = s) ∧
    ((lru_cache_set_ttl s ttl flags env).ret = -1 ∧
      (lru_cache_set_ttl s ttl flags env).err = some env.lock_ret ∧
      (lru_cache_set_ttl s ttl flags env).st = s) := by
  obtain ⟨hw, hrd, hw0, hr0⟩ := lock_fails_of_ne hf he
  refine ⟨?_, ?_, ?_, ?_⟩
  · unfold lru_cache_get
    simp only [hrd]
    rw [if_pos he]
    exact ⟨_, rfl, rfl, rfl, rfl⟩
  · unfold lru_cache_set
    simp only [hw]
    rw [if_neg hv, if_pos he]
    exact ⟨_, rfl, rfl, rfl, rfl⟩
  · unfold lru_cache_empty LRU_CACHE_SET_OPT
    simp only [hw]
    rw [if_pos he]
    exact ⟨rfl, rfl, rfl⟩
  · unfold lru_cache_set_ttl LRU_CACHE_SET_OPT
    simp only [hw]
    rw [if_pos he]
    exact ⟨rfl, rfl, rfl⟩

set_option maxRecDepth 1000000

/-- C11, for `lru_cache_create (128, 0, err)` at clock reading `t0`. -/
theorem create_validation_witness :
    (cenv_ok t0).calloc_cache_ok = true ∧ (cenv_ok t0).calloc_values_ok = true ∧
    (cenv_ok t0).rwlock_init_ret = 0 ∧
    ((((lru_cache_create 128 0 (cenv_ok t0)).1 = none ∧
        (lru_cache_create 128 0 (cenv_ok t0)).2 = some EINVAL) ↔
      ((0 < 128 ∧ 128 < 128) ∨ (0 < 0 ∧ 0 < 1048576))) ∧
    (¬ ((0 < 128 ∧ 128 < 128) ∨ (0 < 0 ∧ 0 < 1048576)) →
      ∃ s, lru_cache_create 128 0 (cenv_ok t0) = (some s, none) ∧
        s.heap = [] ∧ s.released = [] ∧ s.cache.first = none ∧ s.cache.last = none ∧
        s.cache.value_cnt = 0 ∧ s.cache.size_cnt = 0 ∧
        s.cache.max_values = (if 128 = 0 then 4096 else 128) ∧
        s.cache.values = List.replicate s.cache.max_values none ∧
        s.cache.max_size = 0)) :=
  ⟨rfl, rfl, rfl, create_validation 128 0 (cenv_ok t0) rfl rfl rfl⟩

/-- C12 (failing input).  In `hook_state` a destroy hook is installed and the
entries of `"a"` (value 1) and `"b"` (value 2) are live; nothing was released
so far.  `lru_cache_unset` of `"a"` without `LRU_CACHE_FLAG_DONT_FREE` returns 0
and releases nothing, and `lru_cache_destroy` without the flag returns 0,
releases nothing and frees no entry. -/
theorem unset_and_destroy_release_nothing :
    hook_state.cache.destroy_func = true ∧ hook_state.released = [] ∧
    live_entries hook_state = [0, 1] ∧
    hook_state.heap.map (fun e => (e.key, e.value)) = [(key_a, 1), (key_b, 2)] ∧
    (lru_cache_unset hook_state key_a LRU_CACHE_FLAG_NONE (env_ok t0)).map
      (fun r => (r.ret, r.st.released)) = some (0, []) ∧
    lru_cache_destroy hook_state LRU_CACHE_FLAG_NONE 0 =
      some { ret := 0, err := none, released := [], freed := [] } := by
  decide

/-- C13 (failing input).  `"f"` and `"j"` share a bucket.  After the successful
calls `set f`, `set j`, `set f` the order list holds three entries, all live,
and the first and the third both carry the key `"f"`. -/
theorem duplicate_key_after_collision :
    (session 128 0 (cenv_ok t0)
      [set_at key_f 1 t0, set_at key_j 2 t0, set_at key_f 3 t0]).map Prod.fst
        = some [0, 0, 0] ∧
    lru_order (session_state 128 0 (cenv_ok t0)
      [set_at key_f 1 t0, set_at key_j 2 t0, set_at key_f 3 t0]) = [0, 1, 2] ∧
    live_entries (session_state 128 0 (cenv_ok t0)
      [set_at key_f 1 t0, set_at key_j 2 t0, set_at key_f 3 t0]) = [0, 1, 2] ∧
    (session_state 128 0 (cenv_ok t0)
      [set_at key_f 1 t0, set_at key_j 2 t0, set_at key_f 3 t0]).heap.map
        (fun e => e.key) = [key_f, key_j, key_f] := by
  decide

/-- C14 (failing input).  After one successful `lru_cache_set` the bucket chains
hold one entry and the order list has length 1, but `value_cnt` is 0. -/
theorem value_cnt_not_maintained :
    (session 128 0 (cenv_ok t0) [set_at key_a 1 t0]).map Prod.fst = some [0] ∧
    bucket_entries demo_state = 1 ∧ (lru_order demo_state).length = 1 ∧
    demo_state.cache.value_cnt = 0 := by
  decide

/-- C15 (failing input).  `lru_cache_unset` of `"a"` on `demo_state`, called
without `LRU_CACHE_FLAG_DONT_LOCK` while the lock call reports the error code
35: the call returns 0, writes no error code and removes the entry. -/
theorem unset_ignores_lock_error :
    LRU_CACHE_FLAG_NONE &&& LRU_CACHE_FLAG_DONT_LOCK = 0 ∧
    (env_lock_fails t0).lock_ret = 35 ∧
    bucket_lookup demo_state key_a = some (some 0) ∧ lru_order demo_state = [0] ∧
    (lru_cache_unset demo_state key_a LRU_CACHE_FLAG_NONE (env_lock_fails t0)).map
      (fun r => (r.ret, r.err, bucket_lookup r.st key_a, lru_order r.st))
        = some (0, none, some none, []) := by
  decide

/-- C16, at `demo_state` for the key `"a"`. -/
theorem hash_in_range_witness :
    Reachable demo_state ∧
    lru_cache_hash demo_state.cache key_a < demo_state.cache.max_values ∧
    (∃ chain, demo_state.cache.values[lru_cache_hash demo_state.cache key_a]? = some chain) ∧
    lru_cache_hash demo_state.cache key_a =
      MurMurhash3_x86_32 key_a demo_state.cache.seed % demo_state.cache.max_values ∧
    (∀ (ops : List Op) (s2 : State), run demo_state ops = some s2 →
      lru_cache_hash s2.cache key_a = lru_cache_hash demo_state.cache key_a) :=
  ⟨reachable_session_state _ _ _ _ (by decide),
    hash_in_range demo_state key_a (reachable_session_state _ _ _ _ (by decide))⟩

/-- C17, at `demo_state` emptied one second after the `lru_cache_set`. -/
theorem empty_changes_only_epoch_witness :
    (lru_cache_empty demo_state LRU_CACHE_FLAG_NONE (env_ok (t0 + 1))).ret = 0 ∧
    (lru_cache_empty demo_state LRU_CACHE_FLAG_NONE (env_ok (t0 + 1))).st =
      { demo_state with cache := { demo_state.cache with mtime := (env_ok (t0 + 1)).now } } ∧
    (lru_cache_empty demo_state LRU_CACHE_FLAG_NONE (env_ok (t0 + 1))).err = none ∧
    ∃ r, lru_cache_get (lru_cache_empty demo_state LRU_CACHE_FLAG_NONE (env_ok (t0 + 1))).st
        key_a LRU_CACHE_FLAG_NONE (env_ok (t0 + 1)) = some r ∧ r.ret = 0 :=
  ⟨by decide,
    (empty_changes_only_epoch demo_state LRU_CACHE_FLAG_NONE (env_ok (t0 + 1))
      (by decide)).1,
    (empty_changes_only_epoch demo_state LRU_CACHE_FLAG_NONE (env_ok (t0 + 1))
      (by decide)).2.1,
    (empty_changes_only_epoch demo_state LRU_CACHE_FLAG_NONE (env_ok (t0 + 1))
      (by decide)).2.2 key_a 0 demo_entry LRU_CACHE_FLAG_NONE (env_ok (t0 + 1))
      (by decide) (by decide) (by decide)⟩

/-- C18 (failing input).  After `stale_ops` the order list is `[a, c]` while
`cache->last` is the entry of `"a"`.  A successful `lru_cache_set` of the new
key `"d"` links the new entry behind `cache->last`: the order list becomes
`[a, d]`, not `[a, c, d]`. -/
theorem insert_drops_tail_of_order_list :
    lru_order (session_state 128 0 (cenv_ok t0) stale_ops) = [0, 2] ∧
    (session_state 128 0 (cenv_ok t0) stale_ops).cache.last = some 0 ∧
    bucket_lookup (session_state 128 0 (cenv_ok t0) stale_ops) key_d = some none ∧
    (session 128 0 (cenv_ok t0) (stale_ops ++ [set_at key_d 5 t0])).map Prod.fst
      = some [0, 0, 0, 0, 0, 0, 0] ∧
    lru_order (session_state 128 0 (cenv_ok t0) (stale_ops ++ [set_at key_d 5 t0]))
      = [0, 3] ∧
    (session_state 128 0 (cenv_ok t0) (stale_ops ++ [set_at key_d 5 t0])).cache.last
      = some 3 := by
  decide

/-- C19 (counterexample).  In `sized_pair_state` (`max_size = 1048576`,
`size_cnt = 0`) the order list is `"b"`, `"a"` and the entry of `"a"` holds the
value 1 of size 100.  For `lru_cache_set` of `"a"` to the value 10486 of size
1048600 the difference of the sizes is 1048500, which is within `max_size`: the
eviction loop run with 1048500 evicts nothing and the replacement that follows
has a result.  The call runs the loop with 1048600 instead, which reaches the
eviction call on `"b"`, so the call has no defined result; with the value 10485
of size 1048500 it returns 0. -/
theorem resize_is_not_the_difference :
    sized_pair_state.cache.max_size = 1048576 ∧
    sized_pair_state.cache.size_cnt = 0 ∧
    lru_order sized_pair_state = [0, 1] ∧
    bucket_lookup sized_pair_state key_a = some (some 1) ∧
    (sized_pair_state.heap[1]?).map (fun e => e.value) = some 1 ∧
    size_times_100 1 = 100 ∧ size_times_100 10486 = 1048600 ∧
    size_times_100 10486 - size_times_100 1 = 1048500 ∧
    size_loop sized_pair_state.cache sized_pair_state.heap (some 1) 1048500
      (LRU_CACHE_FLAG_DONT_FREE ||| LRU_CACHE_FLAG_DONT_LOCK) sized_pair_state.heap.length
      sized_pair_state.cache.first = some () ∧
    (set_replace sized_pair_state 1 10486 LRU_CACHE_FLAG_DONT_FREE).isSome = true ∧
    set_resize sized_pair_state.cache sized_pair_state.heap (some 1) key_a 10486 =
      some 1048600 ∧
    size_loop sized_pair_state.cache sized_pair_state.heap (some 1) 1048600
      (LRU_CACHE_FLAG_DONT_FREE ||| LRU_CACHE_FLAG_DONT_LOCK) sized_pair_state.heap.length
      sized_pair_state.cache.first = none ∧
    (lru_cache_set sized_pair_state key_a 10486 LRU_CACHE_FLAG_DONT_FREE
      (env_ok t0)).isSome = false ∧
    (lru_cache_set sized_pair_state key_a 10485 LRU_CACHE_FLAG_DONT_FREE
      (env_ok t0)).map (fun r => r.ret) = some 0 := by
  decide

/-- C20.  For every key and every 32-bit seed the digest computed by
`MurMurhash3_x86_32` is the reference MurmurHash3 x86_32 digest; the empty key
gives `0x00000000` with seed 0 and `0x514E28B7` with seed 1, and the key
`"test"` gives `0xBA6BD213` with seed 0. -/
theorem murmur_refines_reference :
    (∀ (key : List Nat) (seed : Nat), seed < 2 ^ 32 →
      MurMurhash3_x86_32 key seed = MurmurHash3_x86_32_ref key seed) ∧
    MurMurhash3_x86_32 [] 0 = 0x00000000 ∧
    MurMurhash3_x86_32 [] 1 = 0x514E28B7 ∧
    MurMurhash3_x86_32 key_test 0 = 0xBA6BD213 :=
  ⟨murmur_eq_ref, by decide, by decide, by decide⟩

/-- C20, for the key `"test"` and the seed 1700000000. -/
theorem murmur_refines_reference_witness :
    1700000000 < 2 ^ 32 ∧
    MurMurhash3_x86_32 key_test 1700000000 = MurmurHash3_x86_32_ref key_test 1700000000 :=
  ⟨by decide, murmur_refines_reference.1 key_test 1700000000 (by decide)⟩

theorem set_unlock_failed (flags : Nat) (env : Env) (err : Option Int) (st : State) :
    (set_unlock flags env (-1) err st).ret = -1 := by
  unfold set_unlock
  simp only
  split <;> rfl

/-- In a well-formed memory a key that the bucket walk does not find leaves the
search loop of `lru_cache_set` with `entry = NULL` and `chain = NULL`, and the
head of its bucket, if any, has another key. -/
theorem set_loop_miss {s : State} (hinv : Inv s) {key : List Nat} {chain0 : Option Nat}
    (hc : s.cache.values[lru_cache_hash s.cache key]? = some chain0)
    (hmiss : bucket_lookup s key = some none) :
    set_loop s.heap key s.heap.length chain0 none = some (none, none) ∧
    ∀ (q : Nat) (e2 : lru_cache_entry_t), chain0 = some q → s.heap[q]? = some e2 →
      e2.key ≠ key := by
  unfold bucket_lookup at hmiss
  rw [hc] at hmiss
  simp only at hmiss
  cases chain0 with
  | none =>
    refine ⟨?_, ?_⟩
    · cases s.heap.length <;> rfl
    · intro q e2 h
      cases h
  | some p =>
    obtain ⟨e, he, _, _⟩ := hinv.buckets _ p hc
    have hp := get_lt he
    obtain ⟨n, hn⟩ : ∃ n, s.heap.length = n + 1 := ⟨s.heap.length - 1, by omega⟩
    have hcc := (hinv.nocc p e he).1
    rw [hn] at hmiss
    rw [hn]
    simp only [chain_find, he, hcc] at hmiss
    have hk : e.key ≠ key := by
      intro hk
      simp [hk] at hmiss
    refine ⟨?_, ?_⟩
    · simp only [set_loop, he, hcc, hk, if_false]
    · intro q e2 hq he2
      cases hq
      rw [he] at he2
      cases he2
      exact hk

/-- A successful `lru_cache_set` of a key the bucket walk does not find is the
insertion with `chain = NULL`. -/
theorem set_miss_inserts {s : State} (hinv : Inv s) {key : List Nat} {value flags : Nat}
    {env : Env} {r : Result Int} (hmiss : bucket_lookup s key = some none)
    (h : lru_cache_set s key value flags env = some r) (hret : r.ret = 0) :
    set_insert s (lru_cache_hash s.cache key) none key value env.now = some r.st := by
  unfold lru_cache_set at h
  simp only at h
  split at h
  · cases h
  · split at h
    · cases h
      simp at hret
    · split at h
      · cases h
      · rename_i chain0 hv
        rw [(set_loop_miss hinv hv hmiss).1] at h
        simp only at h
        split at h
        · cases h
        · split at h
          · cases h
          · split at h
            · cases h
              rw [set_unlock_failed] at hret
              simp at hret
            · split at h
              · cases h
                rw [set_unlock_failed] at hret
                simp at hret
              · split at h
                · cases h
                · rename_i s1 hi
                  cases h
                  rw [set_unlock_st]
                  exact hi

/-- The insertion with `chain = NULL` writes the new block into the bucket
table and fills in its key and value. -/
theorem set_insert_head {s s1 : State} {hash : Nat} {key : List Nat} {value : Nat} {now : Int}
    (h : set_insert s hash none key value now = some s1) :
    s1.cache.values = s.cache.values.set hash (some s.heap.length) ∧
    ∃ e : lru_cache_entry_t, s1.heap[s.heap.length]? = some e ∧ e.key = key ∧
      e.value = value := by
  have hf := (set_insert_frame h).1
  unfold set_insert at h
  simp only at h
  split at h
  · cases h
  · rename_i heap1 first last happ
    split at h
    · cases h
    · rename_i heap2 hst
      simp only [Option.some.injEq] at h
      subst h
      simp only at hf
      refine ⟨rfl, ?_⟩
      obtain ⟨e1, he1, _⟩ := store_eq_some.1 hst
      have hg := store_get hst s.heap.length
      simp only [if_true, he1, Option.map_some'] at hg
      refine ⟨_, hg, ?_, rfl⟩
      have hm : (heap2.map key_time)[s.heap.length]? = some (key, now) := by
        rw [hf]
        simp
      rw [List.getElem?_map, hg] at hm
      simp only [Option.map_some', Option.some.injEq, key_time, Prod.mk.injEq] at hm
      exact hm.1

theorem set_hash_frame {s : State} {key : List Nat} {value flags : Nat} {env : Env}
    {r : Result Int} (h : lru_cache_set s key value flags env = some r) (k : List Nat) :
    lru_cache_hash r.st.cache k = lru_cache_hash s.cache k := by
  have hcf := set_cache_frame h
  unfold lru_cache_hash
  rw [hcf]

/-- The insertion with `chain = NULL` has a result in every well-formed memory. -/
theorem set_insert_total {s : State} (hinv : Inv s) (hash : Nat) (key : List Nat) (value : Nat)
    (now : Int) : ∃ s1, set_insert s hash none key value now = some s1 := by
  have happ : ∃ heap1 first last,
      set_append s.cache (s.heap ++ [fresh_entry now key]) s.heap.length =
        some (heap1, first, last) ∧ heap1.length = s.heap.length + 1 := by
    unfold set_append
    cases hl : s.cache.last with
    | none => exact ⟨_, _, _, rfl, by simp⟩
    | some l =>
      have hlt := hinv.last l hl
      have h1 : l < (s.heap ++ [fresh_entry now key]).length := by
        simp
        omega
      obtain ⟨heap1, e1⟩ := store_isSome (fun x => { x with next := some s.heap.length }) h1
      have hlen1 : heap1.length = s.heap.length + 1 := by
        rw [store_length e1]
        simp
      have h2 : s.heap.length < heap1.length := by omega
      obtain ⟨heap2, e2⟩ := store_isSome (fun x => { x with prev := some l }) h2
      simp only [e1, e2]
      exact ⟨_, _, _, rfl, by rw [store_length e2, hlen1]⟩
  obtain ⟨heap1, first, last, happ, hlen⟩ := happ
  have h3 : s.heap.length < heap1.length := by omega
  obtain ⟨heap2, e3⟩ := store_isSome (fun x => { x with value := value }) h3
  unfold set_insert
  simp only [happ, e3]
  exact ⟨_, rfl⟩

/-- Without a size limit, with the lock taken and released and both allocations
succeeding, `lru_cache_set` of a key the bucket walk does not find returns 0. -/
theorem set_miss_total {s : State} (hr : Reachable s) {key : List Nat} {value flags : Nat}
    {env : Env} (hmiss : bucket_lookup s key = some none) (hv : value ≠ 0)
    (hms : s.cache.max_size = 0) (hl : LRU_CACHE_WRLOCK flags env = 0)
    (hu : LRU_CACHE_UNLOCK flags env = 0) (hc : env.calloc_ok = true)
    (hd : env.strdup_ok = true) :
    ∃ r, lru_cache_set s key value flags env = some r ∧ r.ret = 0 := by
  have hinv := inv_reachable hr
  obtain ⟨chain0, hc0⟩ := bucket_some hinv key
  obtain ⟨s1, hi⟩ := set_insert_total hinv (lru_cache_hash s.cache key) key value env.now
  have hcnt := (reachable_counters hr).1
  have hpos := hinv.pos
  have hno : ¬ (s.cache.value_cnt ≥ s.cache.max_values) := by omega
  unfold lru_cache_set
  simp only [hv, hl, hc0, (set_loop_miss hinv hc0 hmiss).1, hms, hc, hd, hi, hno, set_unlock, hu]
  simp

/-- C21. Bucket chains never grow: in every memory reachable from
`lru_cache_create` by calls of the interface, (1) the `cc_prev` and `cc_next`
links of every entry are null, (2) the chain of every bucket has at most one
entry, (3) the search loop of `lru_cache_set` always ends with `chain = NULL`,
so the branch that links the new entry behind a chain entry is never taken, and
(4) a successful `lru_cache_set` of a key the bucket walk does not find stores
the new entry, with that key and value, as the head of the bucket of the key,
and the entry that was the head of that bucket before has a different key and is
no longer found by `lru_cache_get`, whatever the flags, clock and lock results;
(5) such a call does succeed whenever the cache has no size limit, the value is
not null, the lock is taken and released and both allocations succeed. -/
theorem bucket_chains_never_grow (s : State) (hr : Reachable s) :
    (∀ (i : Nat) (e : lru_cache_entry_t), s.heap[i]? = some e →
      e.cc_prev = none ∧ e.cc_next = none) ∧
    (∀ (b : Nat) (chain : Option Nat), s.cache.values[b]? = some chain →
      (chain_list s.heap s.heap.length chain).length ≤ 1) ∧
    (∀ (key : List Nat) (fuel : Nat) (cur entry0 entry chain : Option Nat),
      set_loop s.heap key fuel cur entry0 = some (entry, chain) → chain = none) ∧
    (∀ (key : List Nat) (value flags : Nat) (env : Env) (r : Result Int),
      bucket_lookup s key = some none →
      lru_cache_set s key value flags env = some r → r.ret = 0 →
      r.st.heap.length = s.heap.length + 1 ∧
      r.st.cache.values[lru_cache_hash s.cache key]? = some (some s.heap.length) ∧
      (∃ e : lru_cache_entry_t, r.st.heap[s.heap.length]? = some e ∧ e.key = key ∧
        e.value = value) ∧
      (∀ (q : Nat) (e2 : lru_cache_entry_t),
        s.cache.values[lru_cache_hash s.cache key]? = some (some q) →
        s.heap[q]? = some e2 →
        e2.key ≠ key ∧
        ∀ (gflags : Nat) (genv : Env),
          ∃ r2, lru_cache_get r.st e2.key gflags genv = some r2 ∧ r2.ret = 0)) ∧
    (∀ (key : List Nat) (value flags : Nat) (env : Env),
      bucket_lookup s key = some none → value ≠ 0 → s.cache.max_size = 0 →
      LRU_CACHE_WRLOCK flags env = 0 → LRU_CACHE_UNLOCK flags env = 0 →
      env.calloc_ok = true → env.strdup_ok = true →
      ∃ r, lru_cache_set s key value flags env = some r ∧ r.ret = 0) := by
  have hinv := inv_reachable hr
  refine ⟨?_, ?_, ?_, ?_, ?_⟩
  · intro i e he
    exact ⟨(hinv.nocc i e he).2, (hinv.nocc i e he).1⟩
  · intro b chain hb
    cases chain with
    | none =>
      have : chain_list s.heap s.heap.length none = [] := by
        cases s.heap.length <;> rfl
      rw [this]
      simp
    | some p =>
      obtain ⟨e, he, _, _⟩ := hinv.buckets _ p hb
      have hp := get_lt he
      obtain ⟨n, hn⟩ : ∃ n, s.heap.length = n + 1 := ⟨s.heap.length - 1, by omega⟩
      have hcc := (hinv.nocc p e he).1
      have hnone : chain_list s.heap n none = [] := by
        cases n <;> rfl
      rw [hn]
      simp only [chain_list, he, hcc, hnone]
      simp
  · intro key fuel cur entry0 entry chain h
    exact set_loop_chain _ _ _ _ _ _ _ h
  · intro key value flags env r hmiss hset hret
    have hins := set_miss_inserts hinv hmiss hset hret
    obtain ⟨hvals, e, he, hek, hev⟩ := set_insert_head hins
    have hlen : r.st.heap.length = s.heap.length + 1 := by
      have := congrArg List.length (set_insert_frame hins).1
      simpa using this
    have hhead : r.st.cache.values[lru_cache_hash s.cache key]? = some (some s.heap.length) := by
      rw [hvals, List.getElem?_set_self (hash_lt hinv key)]
    refine ⟨hlen, hhead, ⟨e, he, hek, hev⟩, ?_⟩
    intro q e2 hq he2
    obtain ⟨chain0, hc⟩ := bucket_some hinv key
    have hne : e2.key ≠ key := (set_loop_miss hinv hq hmiss).2 q e2 rfl he2
    refine ⟨hne, ?_⟩
    intro gflags genv
    have hinv1 : Inv r.st := inv_set hinv hset
    obtain ⟨e3, he3, hb3, _⟩ := hinv.buckets _ q hq
    rw [he2] at he3
    cases he3
    have hbucket : r.st.cache.values[lru_cache_hash r.st.cache e2.key]? =
        some (some s.heap.length) := by
      rw [set_hash_frame hset, hb3]
      exact hhead
    obtain ⟨r2, hr2⟩ := get_total hinv1 e2.key gflags genv
    refine ⟨r2, hr2, ?_⟩
    have hg := get_head hinv1 e2.key gflags genv hbucket
    rw [hr2] at hg
    simp only [Option.map_some', Option.some.injEq, Option.bind, he, entry_data] at hg
    rw [hek, get_core_other _ _ _ _ _ _ _ (fun h => hne h.symm)] at hg
    have h0 := get_core_none r.st.cache e2.key gflags genv
    rw [← hg] at h0
    exact h0
  · intro key value flags env hmiss hv hms hl hu hc hd
    exact set_miss_total hr hmiss hv hms hl hu hc hd

set_option maxRecDepth 1000000

/-- C21, at `collide_state` for the new key `"j"`, which falls into the bucket
of `"f"`. -/
theorem bucket_chains_never_grow_witness :
    Reachable collide_state ∧
    bucket_lookup collide_state key_j = some none ∧
    lru_cache_set collide_state key_j 2 LRU_CACHE_FLAG_DONT_FREE (env_ok t0) =
      some collide_result ∧
    collide_result.ret = 0 ∧
    collide_state.cache.values[lru_cache_hash collide_state.cache key_j]? = some (some 0) ∧
    collide_state.heap[0]? = some collide_entry ∧
    (collide_result.st.heap.length = collide_state.heap.length + 1 ∧
      collide_result.st.cache.values[lru_cache_hash collide_state.cache key_j]? =
        some (some collide_state.heap.length) ∧
      (∃ e : lru_cache_entry_t,
        collide_result.st.heap[collide_state.heap.length]? = some e ∧ e.key = key_j ∧
          e.value = 2) ∧
      collide_entry.key ≠ key_j ∧
      ∃ r2, lru_cache_get collide_result.st collide_entry.key LRU_CACHE_FLAG_NONE (env_ok t0) =
        some r2 ∧ r2.ret = 0) :=
  have hreach : Reachable collide_state := reachable_session_state _ _ _ _ (by decide)
  have hmiss : bucket_lookup collide_state key_j = some none := by decide
  have hset : lru_cache_set collide_state key_j 2 LRU_CACHE_FLAG_DONT_FREE (env_ok t0) =
      some collide_result := eq_some_getD _ _ (by decide)
  have hret : collide_result.ret = 0 := by decide
  have hq : collide_state.cache.values[lru_cache_hash collide_state.cache key_j]? =
      some (some 0) := by decide
  have he2 : collide_state.heap[0]? = some collide_entry := by decide
  have h := (bucket_chains_never_grow collide_state hreach).2.2.2.1 key_j 2
    LRU_CACHE_FLAG_DONT_FREE (env_ok t0) collide_result hmiss hset hret
  ⟨hreach, hmiss, hset, hret, hq, he2, h.1, h.2.1, h.2.2.1,
    (h.2.2.2 0 collide_entry hq he2).1,
    (h.2.2.2 0 collide_entry hq he2).2 LRU_CACHE_FLAG_NONE (env_ok t0)⟩

/-- In a well-formed memory the search loop of `lru_cache_set` leaves in `entry`
what the bucket walk finds for the key, and an entry it finds has that key. -/
theorem set_loop_lookup {s : State} (hinv : Inv s) {key : List Nat} {found : Option Nat}
    (hfound : bucket_lookup s key = some found) :
    ∃ chain0, s.cache.values[lru_cache_hash s.cache key]? = some chain0 ∧
      set_loop s.heap key s.heap.length chain0 none = some (found, none) ∧
      ∀ (p : Nat), found = some p →
        ∃ e : lru_cache_entry_t, s.heap[p]? = some e ∧ e.key = key := by
  obtain ⟨chain0, hc⟩ := bucket_some hinv key
  refine ⟨chain0, hc, ?_⟩
  unfold bucket_lookup at hfound
  rw [hc] at hfound
  simp only at hfound
  cases chain0 with
  | none =>
    have h1 : chain_find s.heap key s.heap.length none = some none := by
      cases s.heap.length <;> rfl
    rw [h1] at hfound
    cases hfound
    refine ⟨?_, ?_⟩
    · cases s.heap.length <;> rfl
    · intro p h
      cases h
  | some p =>
    obtain ⟨e, he, _, _⟩ := hinv.buckets _ p hc
    have hp := get_lt he
    obtain ⟨n, hn⟩ : ∃ n, s.heap.length = n + 1 := ⟨s.heap.length - 1, by omega⟩
    have hcc := (hinv.nocc p e he).1
    have h1 : chain_find s.heap key n none = some none := by
      cases n <;> rfl
    rw [hn] at hfound
    rw [hn]
    simp only [chain_find, he, hcc, h1] at hfound
    by_cases hk : e.key = key
    · rw [if_pos hk] at hfound
      cases hfound
      refine ⟨?_, ?_⟩
      · simp only [set_loop, he, hcc, hk, if_true]
      · intro q hq
        cases hq
        exact ⟨e, he, hk⟩
    · rw [if_neg hk] at hfound
      cases hfound
      refine ⟨?_, ?_⟩
      · simp only [set_loop, he, hcc, hk, if_false]
      · intro q hq
        cases hq

/-- The size loop evicts nothing when its test `size_cnt + resize > max_size`
is false on entry. -/
theorem size_loop_idle {s : State} (hinv : Inv s) (entry : Option Nat) (resize prop_flags : Nat)
    (hcmp : ¬ (s.cache.size_cnt + resize) % SIZE_MAX1 > s.cache.max_size) :
    size_loop s.cache s.heap entry resize prop_flags s.heap.length s.cache.first = some () := by
  cases hf : s.cache.first with
  | none => cases s.heap.length <;> rfl
  | some c =>
    have hc := hinv.first c hf
    obtain ⟨n, hn⟩ : ∃ n, s.heap.length = n + 1 := ⟨s.heap.length - 1, by omega⟩
    rw [hn]
    simp only [size_loop, hcmp, if_false]

/-- The size loop reaches the call `lru_cache_unset (cur, ...)` when its test is
true and the oldest entry is not the entry being replaced. -/
theorem size_loop_evicts {s : State} (hinv : Inv s) (entry : Option Nat) (resize prop_flags : Nat)
    (hcmp : (s.cache.size_cnt + resize) % SIZE_MAX1 > s.cache.max_size)
    {c : Nat} (hf : s.cache.first = some c) (hne : entry ≠ some c) :
    size_loop s.cache s.heap entry resize prop_flags s.heap.length s.cache.first = none := by
  have hc := hinv.first c hf
  obtain ⟨n, hn⟩ : ∃ n, s.heap.length = n + 1 := ⟨s.heap.length - 1, by omega⟩
  rw [hn, hf]
  simp only [size_loop, hcmp, if_true, hne, ne_eq, not_false_eq_true, lru_cache_unset_cur]

/-- C19 (amended).  In every memory reachable from `lru_cache_create` with
`max_size != 0` and a sizing hook installed, a call `lru_cache_set (key, value)`
that takes the lock runs its eviction loop with one number `resize`, tested as
`size_cnt + resize > max_size`: (1) when the bucket walk finds an entry for the
key, that entry has the key and `resize` is `size_func (value)` unless it is
below the size of the old value, in which case it is 0 (the old size is never
subtracted); (2) when the key is not found, `resize` is
`sizeof (lru_cache_entry_t) + strlen (key) + size_func (value)` in `size_t`
arithmetic; (3) the call is the eviction loop run with that `resize` followed by
the replacement or insertion; (4) when the test is false the loop evicts
nothing; (5) when the test is true and the oldest entry is not the one found,
the loop reaches the eviction call, which has no defined result, and so has the
whole call. -/
theorem set_eviction_delta (s : State) (hr : Reachable s) (key : List Nat) (value flags : Nat)
    (env : Env) (size_func : Nat → Nat) (found : Option Nat)
    (hms : s.cache.max_size ≠ 0) (hsf : s.cache.size_func = some size_func)
    (hv : value ≠ 0) (hl : LRU_CACHE_WRLOCK flags env = 0)
    (hfound : bucket_lookup s key = some found) :
    ∃ resize : Nat,
      (∀ (p : Nat), found = some p →
        ∃ e : lru_cache_entry_t, s.heap[p]? = some e ∧ e.key = key ∧
          resize = if size_func value < size_func e.value then 0 else size_func value) ∧
      (found = none →
        resize = (sizeof_lru_cache_entry_t + key.length + size_func value) % SIZE_MAX1) ∧
      lru_cache_set s key value flags env =
        (match size_loop s.cache s.heap found resize (flags ||| LRU_CACHE_FLAG_DONT_LOCK)
            s.heap.length s.cache.first with
        | none => none
        | some _ =>
          match found with
          | some p =>
            (set_replace s p value flags).map (fun s1 => set_unlock flags env 0 none s1)
          | none =>
            if env.calloc_ok = true ∧ env.strdup_ok = true then
              (set_insert s (lru_cache_hash s.cache key) none key value env.now).map
                (fun s1 => set_unlock flags env 0 none s1)
            else some (set_unlock flags env (-1) (some env.errno) s)) ∧
      (¬ (s.cache.size_cnt + resize) % SIZE_MAX1 > s.cache.max_size →
        size_loop s.cache s.heap found resize (flags ||| LRU_CACHE_FLAG_DONT_LOCK)
          s.heap.length s.cache.first = some ()) ∧
      ((s.cache.size_cnt + resize) % SIZE_MAX1 > s.cache.max_size →
        ∀ (c : Nat), s.cache.first = some c → found ≠ some c →
          size_loop s.cache s.heap found resize (flags ||| LRU_CACHE_FLAG_DONT_LOCK)
            s.heap.length s.cache.first = none ∧
          lru_cache_set s key value flags env = none) := by
  have hinv := inv_reachable hr
  obtain ⟨chain0, hc0, hloop, hkey⟩ := set_loop_lookup hinv hfound
  have hcnt := (reachable_counters hr).1
  have hpos := hinv.pos
  have hno : ¬ (s.cache.value_cnt ≥ s.cache.max_values) := by omega
  have hrule := resize_rule s.cache s.heap key value size_func hsf
  cases found with
  | none =>
    have heq : lru_cache_set s key value flags env =
        (match size_loop s.cache s.heap none
            ((sizeof_lru_cache_entry_t + key.length + size_func value) % SIZE_MAX1)
            (flags ||| LRU_CACHE_FLAG_DONT_LOCK) s.heap.length s.cache.first with
        | none => none
        | some _ =>
          if env.calloc_ok = true ∧ env.strdup_ok = true then
            (set_insert s (lru_cache_hash s.cache key) none key value env.now).map
              (fun s1 => set_unlock flags env 0 none s1)
          else some (set_unlock flags env (-1) (some env.errno) s)) := by
      unfold lru_cache_set
      simp only [hv, hl, hc0, hloop, hms, hrule.2.1, hno, ne_eq, not_false_eq_true, not_true_eq_false,
        if_true, if_false, and_false, true_and]
      cases size_loop s.cache s.heap none
          ((sizeof_lru_cache_entry_t + key.length + size_func value) % SIZE_MAX1)
          (flags ||| LRU_CACHE_FLAG_DONT_LOCK) s.heap.length s.cache.first with
      | none => simp
      | some u =>
        cases hca : env.calloc_ok
        · simp
        · cases hst : env.strdup_ok
          · simp
          · simp only [and_self, if_true, Bool.true_eq_false, if_false]
            cases set_insert s (lru_cache_hash s.cache key) none key value env.now <;> rfl
    refine ⟨_, ?_, fun _ => rfl, heq, ?_, ?_⟩
    · intro p h
      cases h
    · intro hcmp
      exact size_loop_idle hinv _ _ _ hcmp
    · intro hcmp c hf hne
      have hsl := size_loop_evicts hinv none _ (flags ||| LRU_CACHE_FLAG_DONT_LOCK) hcmp hf hne
      refine ⟨hsl, ?_⟩
      rw [heq, hsl]
  | some p =>
    obtain ⟨e, he, hek⟩ := hkey p rfl
    have heq : lru_cache_set s key value flags env =
        (match size_loop s.cache s.heap (some p)
            (if size_func value < size_func e.value then 0 else size_func value)
            (flags ||| LRU_CACHE_FLAG_DONT_LOCK) s.heap.length s.cache.first with
        | none => none
        | some _ =>
          (set_replace s p value flags).map (fun s1 => set_unlock flags env 0 none s1)) := by
      unfold lru_cache_set
      simp only [hv, hl, hc0, hloop, hms, hrule.1 p e he, hno, ne_eq, not_false_eq_true,
        not_true_eq_false, if_true, if_false, and_false, true_and]
      cases size_loop s.cache s.heap (some p)
          (if size_func value < size_func e.value then 0 else size_func value)
          (flags ||| LRU_CACHE_FLAG_DONT_LOCK) s.heap.length s.cache.first with
      | none => simp
      | some u =>
        simp
        cases set_replace s p value flags <;> rfl
    refine ⟨_, ?_, ?_, heq, ?_, ?_⟩
    · intro q hq
      cases hq
      exact ⟨e, he, hek, rfl⟩
    · intro h
      cases h
    · intro hcmp
      exact size_loop_idle hinv _ _ _ hcmp
    · intro hcmp c hf hne
      have hsl := size_loop_evicts hinv (some p) _ (flags ||| LRU_CACHE_FLAG_DONT_LOCK) hcmp hf hne
      refine ⟨hsl, ?_⟩
      rw [heq, hsl]

set_option maxRecDepth 1000000

/-- C19 (amended), at `sized_pair_state` for `lru_cache_set` of the existing
key `"a"` to the value 2. -/
theorem set_eviction_delta_witness :
    Reachable sized_pair_state ∧
    sized_pair_state.cache.max_size ≠ 0 ∧
    sized_pair_state.cache.size_func = some size_times_100 ∧
    (2 : Nat) ≠ 0 ∧
    LRU_CACHE_WRLOCK LRU_CACHE_FLAG_DONT_FREE (env_ok t0) = 0 ∧
    bucket_lookup sized_pair_state key_a = some (some 1) ∧
    ∃ resize : Nat,
      (∃ e : lru_cache_entry_t, sized_pair_state.heap[1]? = some e ∧ e.key = key_a ∧
        resize = if size_times_100 2 < size_times_100 e.value then 0 else size_times_100 2) ∧
      (¬ (sized_pair_state.cache.size_cnt + resize) % SIZE_MAX1 >
          sized_pair_state.cache.max_size →
        size_loop sized_pair_state.cache sized_pair_state.heap (some 1) resize
          (LRU_CACHE_FLAG_DONT_FREE ||| LRU_CACHE_FLAG_DONT_LOCK)
          sized_pair_state.heap.length sized_pair_state.cache.first = some ()) ∧
      ((sized_pair_state.cache.size_cnt + resize) % SIZE_MAX1 >
          sized_pair_state.cache.max_size →
        ∀ (c : Nat), sized_pair_state.cache.first = some c → some 1 ≠ some c →
          size_loop sized_pair_state.cache sized_pair_state.heap (some 1) resize
            (LRU_CACHE_FLAG_DONT_FREE ||| LRU_CACHE_FLAG_DONT_LOCK)
            sized_pair_state.heap.length sized_pair_state.cache.first = none ∧
          lru_cache_set sized_pair_state key_a 2 LRU_CACHE_FLAG_DONT_FREE (env_ok t0) =
            none) :=
  have hreach : Reachable sized_pair_state := reachable_session_state _ _ _ _ (by decide)
  have hms : sized_pair_state.cache.max_size ≠ 0 := by decide
  have hsf : sized_pair_state.cache.size_func = some size_times_100 := rfl
  have hv : (2 : Nat) ≠ 0 := by decide
  have hl : LRU_CACHE_WRLOCK LRU_CACHE_FLAG_DONT_FREE (env_ok t0) = 0 := by decide
  have hfound : bucket_lookup sized_pair_state key_a = some (some 1) := by decide
  have h := set_eviction_delta sized_pair_state hreach key_a 2 LRU_CACHE_FLAG_DONT_FREE
    (env_ok t0) size_times_100 (some 1) hms hsf hv hl hfound
  ⟨hreach, hms, hsf, hv, hl, hfound,
    h.elim (fun resize hx => ⟨resize, hx.1 1 rfl, hx.2.2.2.1, hx.2.2.2.2⟩)⟩

end LruCache
